import Mathlib

/-!
# Verification of the shop Durable Workflow Engine (Lua runtime)

Shallow embedding of the Lua workflow engine of `mpataki/shop`
(`internal/lua/runtime.go`, together with the workspace signal-file layer of
`internal/config/config.go` and the execution-log storage layer).  The engine
memoizes each `run(agent, prompt)` call of a workflow script through a
persistent execution log keyed by `(run_id, call_index)`.

Modelling conventions:
* Go maps holding JSON signals become association lists `Signal`.
* The SQLite storage becomes a list of `Execution` records inside
  `EngineState`; every `CreateExecution`/`UpdateExecution` also appends to a
  ghost `updateTrace`, so persisted status transitions are observable.
* The external `claude` process is an oracle `Oracle` indexed by the number of
  spawn attempts so far; a successful spawn optionally writes the agent's
  signal file (`fsSignals`).  The ghost field `invocations` records each
  successful agent spawn, `returnedSignals` records each value a `run()` call
  hands back to the script.
* `time.Now()` is a tick counter `clock`, incremented at each observation.
-/

/-- JSON-typed value stored in an agent signal (string / number / bool / null
are all the claims need; nested values never influence the engine's control
flow). -/
inductive SVal where
  | s (v : String)
  | n (v : Int)
  | b (v : Bool)
  | null
deriving DecidableEq

/-- An agent signal: a JSON object, i.e. a finite map from string keys, as an
association list (Go `map[string]any`). -/
abbrev Signal := List (String × SVal)

/-- Look up a key in a signal (Go `signal[k]`, comma-ok form). -/
def sigGet : Signal → String → Option SVal
  | [], _ => none
  | (k0, v0) :: rest, k => if k0 = k then some v0 else sigGet rest k

/-- Set a key in a signal (Go `signal[k] = v`). -/
def sigSet : Signal → String → SVal → Signal
  | [], k, v => [(k, v)]
  | (k0, v0) :: rest, k, v =>
      if k0 = k then (k, v) :: rest else (k0, v0) :: sigSet rest k v

/-- Signal files on disk, keyed by agent name
(`.agents/signals/{agent}.json`). -/
abbrev SignalFS := List (String × Signal)

/-- Read an agent's signal file (`Workspace.ReadSignal`); `none` models the
NotFound error. -/
def fsGet : SignalFS → String → Option Signal
  | [], _ => none
  | (k0, v0) :: rest, k => if k0 = k then some v0 else fsGet rest k

/-- Write an agent's signal file (the agent writing, or
`Workspace.WriteSignal`). -/
def fsSet : SignalFS → String → Signal → SignalFS
  | [], k, v => [(k, v)]
  | (k0, v0) :: rest, k, v =>
      if k0 = k then (k, v) :: rest else (k0, v0) :: fsSet rest k v

/-- Execution statuses.  `pending`, `running`, `complete`, `failed` are in
`internal/models` under src; `waitingHuman` ("waiting_human") is referenced
throughout `runtime.go` (models file in src is a stale revision without it). -/
inductive ExecStatus where
  | pending
  | running
  | complete
  | failed
  | waitingHuman
deriving DecidableEq

/-- Run statuses (`internal/models/run.go`, plus `waiting_human` referenced by
`runtime.go`). -/
inductive RunStatus where
  | pending
  | running
  | complete
  | failed
  | stuck
  | waitingHuman
deriving DecidableEq

/-- One attempt to satisfy one `run()` call (`models.Execution`; the
`CallIndex`/`Prompt` fields are the Lua-workflow extension shown in the
newer models revision embedded in the repository). -/
structure Execution where
  id : Nat
  runId : Nat
  agentName : String
  claudeSessionID : String
  status : ExecStatus
  exitCode : Option Int
  startedAt : Option Nat
  completedAt : Option Nat
  outputSignal : Option Signal
  sequenceNum : Nat
  callIndex : Nat
  prompt : String
  pid : Option Nat
deriving DecidableEq

/-- The top-level unit of work (`models.Run`; the `error` / waiting fields are
referenced by `runtime.go`'s `markStuck` / `markWaitingHuman`). -/
structure Run where
  id : Nat
  createdAt : Nat
  completedAt : Option Nat
  initialPrompt : String
  specName : String
  workspacePath : String
  status : RunStatus
  currentAgent : String
  error : String
  waitingReason : String
  waitingSessionID : String
deriving DecidableEq

/-- Ghost record of one persisted execution write: id, status and signal as
stored by `CreateExecution` / `UpdateExecution`. -/
abbrev TraceEntry := Nat × ExecStatus × Option Signal

/-- Outcome of one `runClaude` spawn attempt: either the launch fails
(`cmd.Start` error) or the process runs, yielding a session id and exit code
and optionally writing the agent's signal file before exiting. -/
inductive AgentOutcome where
  | launchFail (msg : String)
  | ran (sessionId : String) (exitCode : Int) (writes : Option Signal)
deriving DecidableEq

/-- The external agent, as an oracle over the number of spawn attempts made so
far. -/
abbrev Oracle := Nat → AgentOutcome

/-- Combined state: the Run row, the executions table, the runtime's in-memory
fields (`Runtime` struct of runtime.go), the workspace signal files, and ghost
observables. -/
structure EngineState where
  run : Run
  execs : List Execution
  nextExecId : Nat
  callIndex : Nat
  logs : List String
  isStuck : Bool
  stuckReason : String
  waitingHuman : Bool
  waitingReason : String
  waitingSessionID : String
  waitingAgent : String
  waitingExecID : Nat
  fsSignals : SignalFS
  contextLog : List (String × Signal)
  clock : Nat
  invokeCount : Nat
  invocations : List (Nat × String)
  updateTrace : List TraceEntry
  returnedSignals : List Signal
deriving DecidableEq

/-- `storage.UpdateExecution`: rewrite the row with this id and record the
persisted (status, signal) in the ghost trace. -/
def updateExecution (st : EngineState) (e : Execution) : EngineState :=
  { st with
      execs := st.execs.map (fun x => if x.id = e.id then e else x)
      updateTrace := st.updateTrace ++ [(e.id, e.status, e.outputSignal)] }

/-- `storage.CreateExecution`: insert a new row with a fresh id, returning the
id. -/
def createExecution (st : EngineState) (e : Execution) : Nat × EngineState :=
  let eid := st.nextExecId
  let e2 := { e with id := eid }
  (eid,
   { st with
       execs := st.execs ++ [e2]
       nextExecId := eid + 1
       updateTrace := st.updateTrace ++ [(eid, e2.status, e2.outputSignal)] })

/-- Modelled from the spec: `storage.GetExecutionByCallIndex` is absent from
src (the storage file there is a stale revision without `call_index`); §4.1
"find(run_id, call_index) → execution | ∅" with `(run_id, call_index)`
uniquely indexed. -/
def getExecutionByCallIndex (execs : List Execution) (runId ci : Nat) :
    Option Execution :=
  execs.find? (fun e => e.runId == runId && e.callIndex == ci)

/-- Modelled from the spec: `storage.InvalidateExecutionsAfterIndex` is absent
from src; §4.1 "invalidate_after(run_id, call_index) — deletes or tombstones
all records with call_index > N". -/
def invalidateExecutionsAfterIndex (st : EngineState) (runId ci : Nat) :
    EngineState :=
  { st with execs := st.execs.filter (fun e => !(e.runId == runId && ci < e.callIndex)) }

/-- `storage.GetExecutionsForRun` restricted to what `runAgentFresh` needs:
the rows of this run (used only for `len(execs) + 1`). -/
def executionsForRun (execs : List Execution) (runId : Nat) : List Execution :=
  execs.filter (fun e => e.runId == runId)

/-- The workspace signal files after a spawned agent exits, having optionally
written its own signal file. -/
def fsAfterWrite (fs : SignalFS) (agent : String) (writes : Option Signal) :
    SignalFS :=
  match writes with
  | some s => fsSet fs agent s
  | none => fs

/-- The waiting reason extracted from a NEEDS_HUMAN signal: its `reason`
string if present, else the default (runtime.go:338-342 and 372-376). -/
def reasonOf (signal : Signal) : String :=
  match sigGet signal "reason" with
  | some (SVal.s r) => r
  | _ => "Agent needs human input"

/-- `runAgent` (runtime.go:263-357): update the run's current agent, mark the
record running, spawn the agent, read its signal file, finalize or fail the
record, suspend on NEEDS_HUMAN, otherwise append context and inject
`_session_id`.  The `error` result models the Go non-nil error (only the
NEEDS_HUMAN suspension survives in this model; storage and workspace writes
are total; the scratchpad, metadata and PID writes have no observable effect
on the modelled state). -/
def runAgent (oracle : Oracle) (agent prompt : String) (exec0 : Execution)
    (st0 : EngineState) : Except String Signal × EngineState :=
  let st1 := { st0 with run := { st0.run with currentAgent := agent } }
  let exec1 := { exec0 with startedAt := some st1.clock, status := ExecStatus.running }
  let st2 := updateExecution { st1 with clock := st1.clock + 1 } exec1
  match oracle st2.invokeCount with
  | AgentOutcome.launchFail msg =>
      let st3 := { st2 with invokeCount := st2.invokeCount + 1 }
      let exec2 := { exec1 with status := ExecStatus.failed }
      (Except.ok [("status", SVal.s "ERROR"),
                  ("reason", SVal.s ("agent execution failed: " ++ msg))],
       updateExecution st3 exec2)
  | AgentOutcome.ran sid code writes =>
      let st3 := { st2 with
          invokeCount := st2.invokeCount + 1
          invocations := st2.invocations ++ [(exec0.callIndex, agent)]
          fsSignals := fsAfterWrite st2.fsSignals agent writes }
      match fsGet st3.fsSignals agent with
      | none =>
          let exec2 := { exec1 with status := ExecStatus.failed }
          (Except.ok [("status", SVal.s "ERROR"),
                      ("reason", SVal.s ("no signal produced: signal file not found for agent " ++ agent))],
           updateExecution st3 exec2)
      | some signal =>
          let exec2 := { exec1 with
              claudeSessionID := sid
              exitCode := some code
              completedAt := some st3.clock
              outputSignal := some signal
              status := ExecStatus.complete }
          let st4 := updateExecution { st3 with clock := st3.clock + 1 } exec2
          if sigGet signal "status" = some (SVal.s "NEEDS_HUMAN") then
            let exec3 := { exec2 with status := ExecStatus.waitingHuman }
            let st5 := updateExecution st4 exec3
            let reason := reasonOf signal
            (Except.error ("agent " ++ agent ++ " needs human input: " ++ reason),
             { st5 with
                 waitingHuman := true
                 waitingSessionID := sid
                 waitingAgent := agent
                 waitingExecID := exec0.id
                 waitingReason := reason })
          else
            (Except.ok (sigSet signal "_session_id" (SVal.s sid)),
             { st4 with contextLog := st4.contextLog ++ [(agent, signal)] })

/-- `runAgentFresh` (runtime.go:235-260): append a pending record at the
current call index and run the agent against it. -/
def runAgentFresh (oracle : Oracle) (agent prompt : String) (st : EngineState) :
    Except String Signal × EngineState :=
  let seqNum := (executionsForRun st.execs st.run.id).length + 1
  let e : Execution :=
    { id := 0, runId := st.run.id, agentName := agent, claudeSessionID := ""
      status := ExecStatus.pending, exitCode := none, startedAt := none
      completedAt := none, outputSignal := none, sequenceNum := seqNum
      callIndex := st.callIndex, prompt := prompt, pid := none }
  let p := createExecution st e
  runAgent oracle agent prompt { e with id := p.1 } p.2

/-- The pending record `runAgentFresh` creates, with its assigned id. -/
def freshExecRecord (st : EngineState) (agent prompt : String) : Execution :=
  { id := st.nextExecId, runId := st.run.id, agentName := agent
    claudeSessionID := "", status := ExecStatus.pending, exitCode := none
    startedAt := none, completedAt := none, outputSignal := none
    sequenceNum := (executionsForRun st.execs st.run.id).length + 1
    callIndex := st.callIndex, prompt := prompt, pid := none }

/-- `recoverExecution` (runtime.go:360-400): if the signal file exists and is
still NEEDS_HUMAN, re-enter the waiting state; if it exists otherwise,
finalize the record from the file; if absent, re-run the stored agent with the
stored prompt. -/
def recoverExecution (oracle : Oracle) (exec : Execution) (st : EngineState) :
    Except String Signal × EngineState :=
  match fsGet st.fsSignals exec.agentName with
  | some signal =>
      if sigGet signal "status" = some (SVal.s "NEEDS_HUMAN") then
        let reason := reasonOf signal
        (Except.error ("agent " ++ exec.agentName ++ " still needs human input"),
         { st with
             waitingHuman := true
             waitingSessionID := exec.claudeSessionID
             waitingAgent := exec.agentName
             waitingExecID := exec.id
             waitingReason := reason })
      else
        let exec2 := { exec with
            completedAt := some st.clock
            outputSignal := some signal
            status := ExecStatus.complete }
        let st2 := updateExecution { st with clock := st.clock + 1 } exec2
        (Except.ok signal,
         { st2 with contextLog := st2.contextLog ++ [(exec.agentName, signal)] })
  | none => runAgent oracle exec.agentName exec.prompt exec st

/-- Outcome of one API call as seen by the Lua interpreter: a pushed value or
a raised interpreter error (`L.RaiseError`). -/
inductive LuaOutcome where
  | value (sig : Signal)
  | raised (msg : String)
deriving DecidableEq

/-- The divergence check at the end of `luaRun` (runtime.go:202-213): on an
agent-name mismatch, log a warning, invalidate the log tail after
`callIndex - 1`, and run the requested agent fresh. -/
def mismatchCheck (oracle : Oracle) (agent prompt : String) (exec : Execution)
    (signal : Signal) (st : EngineState) : LuaOutcome × EngineState :=
  if exec.agentName ≠ agent then
    let st1 := { st with
        logs := st.logs ++
          ["WARNING: determinism violation at call " ++ toString st.callIndex ++
           ": expected " ++ exec.agentName ++ ", got " ++ agent] }
    let st2 := invalidateExecutionsAfterIndex st1 st.run.id (st.callIndex - 1)
    match runAgentFresh oracle agent prompt st2 with
    | (Except.error msg, st3) => (LuaOutcome.raised ("failed to run agent: " ++ msg), st3)
    | (Except.ok sig2, st3) => (LuaOutcome.value sig2, st3)
  else
    (LuaOutcome.value signal, st)

/-- `luaRun` (runtime.go:153-232): the memoized `run(agent, prompt?)` API. -/
def luaRun (oracle : Oracle) (agent prompt : String) (st0 : EngineState) :
    LuaOutcome × EngineState :=
  let st := { st0 with callIndex := st0.callIndex + 1 }
  match getExecutionByCallIndex st.execs st.run.id st.callIndex with
  | some exec =>
      if exec.status = ExecStatus.complete then
        let signal := match exec.outputSignal with
                      | some s => s
                      | none => [("status", SVal.s "ERROR"),
                                 ("reason", SVal.s "no signal in cache")]
        mismatchCheck oracle agent prompt exec signal st
      else if exec.status = ExecStatus.running ∨ exec.status = ExecStatus.waitingHuman then
        match recoverExecution oracle exec st with
        | (Except.error msg, st1) =>
            if st1.waitingHuman then
              (LuaOutcome.raised ("waiting for human: " ++ st1.waitingReason), st1)
            else
              (LuaOutcome.raised ("failed to recover execution: " ++ msg), st1)
        | (Except.ok signal, st1) => mismatchCheck oracle agent prompt exec signal st1
      else
        match runAgent oracle agent prompt exec st with
        | (Except.error msg, st1) =>
            if st1.waitingHuman then
              (LuaOutcome.raised ("waiting for human: " ++ st1.waitingReason), st1)
            else
              (LuaOutcome.raised ("failed to run agent: " ++ msg), st1)
        | (Except.ok signal, st1) => mismatchCheck oracle agent prompt exec signal st1
  | none =>
      match runAgentFresh oracle agent prompt st with
      | (Except.error msg, st1) =>
          if st1.waitingHuman then
            (LuaOutcome.raised ("waiting for human: " ++ st1.waitingReason), st1)
          else
            (LuaOutcome.raised ("failed to run agent: " ++ msg), st1)
      | (Except.ok signal, st1) => (LuaOutcome.value signal, st1)

/-- One step of a deterministic workflow script: a `run()` call, an uncaught
script error, or a `stuck(reason)` call. -/
inductive ScriptOp where
  | runA (agent prompt : String)
  | raiseErr (msg : String)
  | stuckOp (reason : String)

/-- Result of `L.PCall` on the workflow function. -/
inductive ScriptResult where
  | finished
  | errored (msg : String)
deriving DecidableEq

/-- Execute the workflow body: each `run()` goes through `luaRun` and records
the signal handed to the script; `stuck()` sets the flags and raises
(runtime.go:523-530); an uncaught script error aborts. -/
def runScript (oracle : Oracle) : List ScriptOp → EngineState →
    ScriptResult × EngineState
  | [], st => (ScriptResult.finished, st)
  | ScriptOp.runA agent prompt :: rest, st =>
      match luaRun oracle agent prompt st with
      | (LuaOutcome.value sig, st1) =>
          runScript oracle rest
            { st1 with returnedSignals := st1.returnedSignals ++ [sig] }
      | (LuaOutcome.raised msg, st1) => (ScriptResult.errored msg, st1)
  | ScriptOp.raiseErr msg :: _, st => (ScriptResult.errored msg, st)
  | ScriptOp.stuckOp reason :: _, st =>
      (ScriptResult.errored ("stuck: " ++ reason),
       { st with isStuck := true, stuckReason := reason })

/-- `markComplete` (runtime.go:773-778). -/
def markComplete (st : EngineState) : EngineState :=
  { st with
      run := { st.run with status := RunStatus.complete, completedAt := some st.clock }
      clock := st.clock + 1 }

/-- `markStuck` (runtime.go:781-787). -/
def markStuck (st : EngineState) : EngineState :=
  { st with
      run := { st.run with
          status := RunStatus.stuck
          completedAt := some st.clock
          error := st.stuckReason }
      clock := st.clock + 1 }

/-- `markWaitingHuman` (runtime.go:790-799). -/
def markWaitingHuman (st : EngineState) : EngineState :=
  { st with
      run := { st.run with
          status := RunStatus.waitingHuman
          waitingReason := st.waitingReason
          waitingSessionID := st.waitingSessionID
          currentAgent := st.waitingAgent } }

/-- Result of `Runtime.Execute`: normal return, the distinguished
`ErrWaitingHuman`, or a wrapped script error. -/
inductive ExecResult where
  | ok
  | errWaitingHuman
  | scriptError (msg : String)
deriving DecidableEq

/-- `Runtime.Execute` (runtime.go:54-111) after a successful script load: run
the workflow, then dispatch on the stuck / waiting flags exactly as the
source does on both the error and the success path of `PCall`. -/
def ExecuteScript (oracle : Oracle) (script : List ScriptOp) (st : EngineState) :
    ExecResult × EngineState :=
  match runScript oracle script st with
  | (ScriptResult.errored msg, st1) =>
      if st1.isStuck then (ExecResult.ok, markStuck st1)
      else if st1.waitingHuman then (ExecResult.errWaitingHuman, markWaitingHuman st1)
      else (ExecResult.scriptError ("workflow execution failed: " ++ msg), st1)
  | (ScriptResult.finished, st1) =>
      if st1.isStuck then (ExecResult.ok, markStuck st1)
      else if st1.waitingHuman then (ExecResult.errWaitingHuman, markWaitingHuman st1)
      else (ExecResult.ok, markComplete st1)

/-- The engine state with the Run row set to `running`, as the orchestrator
does before executing the script. -/
def withRunning (st : EngineState) : EngineState :=
  { st with run := { st.run with status := RunStatus.running } }

/-- Modelled from the spec: the orchestrator wrapper (`ExecuteLua`) that hosts
the runtime is absent from src (only its CLI callers are).  Spec §4.5/§6: the
Run is set running and `Execute` invoked; an uncaught script error makes the
Run `failed` with the error message stored (§7 ScriptError, §3 terminal-state
timestamp invariant). -/
def executeLua (oracle : Oracle) (script : List ScriptOp) (st : EngineState) :
    ExecResult × EngineState :=
  match ExecuteScript oracle script (withRunning st) with
  | (ExecResult.scriptError msg, st1) =>
      (ExecResult.scriptError msg,
       { st1 with
           run := { st1.run with
               status := RunStatus.failed
               error := msg
               completedAt := some st1.clock }
           clock := st1.clock + 1 })
  | r => r

/-- A freshly constructed `Runtime` over persisted state (`NewRuntime`): call
index 0, empty logs, clear flags; persistent storage, files and ghost history
are kept. -/
def freshRuntime (st : EngineState) : EngineState :=
  { st with
      callIndex := 0
      logs := []
      isStuck := false
      stuckReason := ""
      waitingHuman := false
      waitingReason := ""
      waitingSessionID := ""
      waitingAgent := ""
      waitingExecID := 0
      returnedSignals := [] }

/-- The persisted state as a resume sees it: completion timestamp cleared and
a fresh runtime constructed over it. -/
def resumeState (st : EngineState) : EngineState :=
  freshRuntime { st with run := { st.run with completedAt := none } }

/-- Modelled from the spec: the resume entry point (`orch.Resume` /
`ResumeLuaRun`) is absent from src (only the CLI caller is).  Spec §6 "Resume
invocation": load the Run, reset its status to `running`, clear the completion
timestamp, and invoke `Execute` with a fresh runtime. -/
def resumeRun (oracle : Oracle) (script : List ScriptOp) (st : EngineState) :
    ExecResult × EngineState :=
  executeLua oracle script (resumeState st)

/-- Initial engine state for a newly created Run: empty execution log, empty
workspace signal directory, empty ghost history. -/
def initEngineState (run : Run) : EngineState :=
  { run := run, execs := [], nextExecId := 1, callIndex := 0, logs := []
    isStuck := false, stuckReason := "", waitingHuman := false
    waitingReason := "", waitingSessionID := "", waitingAgent := ""
    waitingExecID := 0, fsSignals := [], contextLog := [], clock := 0
    invokeCount := 0, invocations := [], updateTrace := []
    returnedSignals := [] }

/-- A deterministic workflow body consisting only of `run()` calls. -/
def callsToOps (calls : List (String × String)) : List ScriptOp :=
  calls.map (fun c => ScriptOp.runA c.1 c.2)

/-- No record of this run sits beyond the current call index, and all record
ids are below `nextExecId`: the storage shape from which fresh calls append. -/
def FreshInv (st : EngineState) : Prop :=
  (∀ e ∈ st.execs, e.runId = st.run.id → e.callIndex ≤ st.callIndex) ∧
  (∀ e ∈ st.execs, e.id < st.nextExecId)

/-- The state after one fresh, successful, non-NEEDS_HUMAN `run()` call under
an agent behaviour described by session ids `sid`, exit codes `cd` and
written signals `sg` (indexed by the spawn counter): the closed form of one
`runScript` step. -/
def benignStep (sid : Nat → String) (cd : Nat → Int) (sg : Nat → Signal)
    (c : String × String) (st : EngineState) : EngineState :=
  { st with
      run := { st.run with currentAgent := c.1 }
      execs := st.execs ++
        [{ id := st.nextExecId, runId := st.run.id, agentName := c.1
           claudeSessionID := sid st.invokeCount
           status := ExecStatus.complete, exitCode := some (cd st.invokeCount)
           startedAt := some st.clock, completedAt := some (st.clock + 1)
           outputSignal := some (sg st.invokeCount)
           sequenceNum := (executionsForRun st.execs st.run.id).length + 1
           callIndex := st.callIndex + 1, prompt := c.2, pid := none }]
      nextExecId := st.nextExecId + 1
      callIndex := st.callIndex + 1
      fsSignals := fsSet st.fsSignals c.1 (sg st.invokeCount)
      contextLog := st.contextLog ++ [(c.1, sg st.invokeCount)]
      clock := st.clock + 2
      invokeCount := st.invokeCount + 1
      invocations := st.invocations ++ [(st.callIndex + 1, c.1)]
      updateTrace := st.updateTrace ++
        [(st.nextExecId, ExecStatus.pending, none),
         (st.nextExecId, ExecStatus.running, none),
         (st.nextExecId, ExecStatus.complete, some (sg st.invokeCount))]
      returnedSignals := st.returnedSignals ++
        [sigSet (sg st.invokeCount) "_session_id" (SVal.s (sid st.invokeCount))] }

/-- Iterated `benignStep`: the closed form of a whole first execution. -/
def benignRun (sid : Nat → String) (cd : Nat → Int) (sg : Nat → Signal)
    (calls : List (String × String)) (st : EngineState) : EngineState :=
  calls.foldl (fun s c => benignStep sid cd sg c s) st

/-- The spawn records of a first execution starting after call index `ci`. -/
def invsOf (calls : List (String × String)) (ci : Nat) : List (Nat × String) :=
  match calls with
  | [] => []
  | c :: rest => (ci + 1, c.1) :: invsOf rest (ci + 1)

/-! ## Process-group model (agent supervision)

POSIX semantics relevant to `runClaude` (runtime.go:427-483) and
`Orchestrator.KillRun` (orchestrator.go:359-387): a forked child inherits its
parent's process group unless `SysProcAttr.Setpgid` is set, in which case its
process-group id becomes its own pid; `syscall.Kill(-pgid, sig)` delivers the
signal to exactly the processes whose process group is `pgid`. -/

/-- Spawn attributes of a child process: whether it is started in a new
process group of its own. -/
structure SpawnAttrs where
  setpgid : Bool
deriving DecidableEq

/-- A process: its pid and the process group it belongs to. -/
structure Proc where
  pid : Nat
  pgid : Nat
deriving DecidableEq

/-- Fork semantics: the child joins its own new group iff `setpgid` is set,
else it inherits the parent's group. -/
def spawnChild (parent : Proc) (childPid : Nat) (a : SpawnAttrs) : Proc :=
  { pid := childPid, pgid := if a.setpgid then childPid else parent.pgid }

/-- `runClaude` builds `exec.Command("claude", args...)` and calls
`cmd.Start()` without ever assigning `cmd.SysProcAttr`, so `Setpgid` is left
at its zero value `false`. -/
def runClaudeSpawnAttrs : SpawnAttrs := { setpgid := false }

/-- Modelled from the spec: §4.3 Agent Supervisor, "The child is placed in its
own process group so that killing the group severs child-of-child agents" —
the behaviour the spec ascribes to the supervisor, for comparison with
`runClaudeSpawnAttrs` taken from the source. -/
def specSupervisorSpawnAttrs : SpawnAttrs := { setpgid := true }

/-- `KillRun` sends `syscall.Kill(-PID, SIGKILL)` for the stored PID: the
signalled process group is the PID itself. -/
def killRunTargetGroup (pid : Nat) : Nat := pid

/-- Whether a group-directed termination signal reaches a process. -/
def signalReaches (targetGroup : Nat) (p : Proc) : Bool :=
  p.pgid == targetGroup

/-! ## Trace predicates (Execution state machine) -/

/-- Whether a stored signal carries `status == "NEEDS_HUMAN"`. -/
def isNeedsHuman (s : Option Signal) : Bool :=
  match s with
  | some sig => sigGet sig "status" == some (SVal.s "NEEDS_HUMAN")
  | none => false

/-- The persisted (status, signal) writes of one execution id, in order. -/
def entriesFor (tr : List TraceEntry) (i : Nat) : List (ExecStatus × Option Signal) :=
  tr.filterMap (fun t => if t.1 = i then some t.2 else none)

/-- All entries of a per-id history are `complete`. -/
def lockedAll (l : List (ExecStatus × Option Signal)) : Bool :=
  l.all (fun x => x.1 == ExecStatus.complete)

/-- The claim's reading of the Execution state machine: once an entry is
`complete`, every later persisted status for that id is `complete`. -/
def okChainOrig : List (ExecStatus × Option Signal) → Bool
  | [] => true
  | x :: rest =>
      (!(x.1 == ExecStatus.complete) || lockedAll rest) && okChainOrig rest

/-- The amended property: once an entry is `complete` with a stored signal
whose status is not `NEEDS_HUMAN`, every later persisted status for that id is
`complete`.  (A `complete` write whose signal says `NEEDS_HUMAN` is the
transient overwrite inside `runAgent` and is immediately followed by
`waitingHuman`.) -/
def okChain : List (ExecStatus × Option Signal) → Bool
  | [] => true
  | x :: rest =>
      (!(x.1 == ExecStatus.complete && !isNeedsHuman x.2) || lockedAll rest) &&
        okChain rest

/-- No entry of a per-id history is a `complete` write with a
non-`NEEDS_HUMAN` signal (the history is not yet "locked"). -/
def noLock (l : List (ExecStatus × Option Signal)) : Bool :=
  l.all (fun x => !(x.1 == ExecStatus.complete && !isNeedsHuman x.2))

/-- Consistency between the executions table and the ghost trace, plus
freshness of ids, as maintained by the engine: every row's current status and
signal are its last persisted write, trace ids and row ids are below
`nextExecId`, row ids are distinct, and every per-id history satisfies
`okChain`. -/
def TraceInv (st : EngineState) : Prop :=
  (∀ i, okChain (entriesFor st.updateTrace i) = true) ∧
  (∀ e ∈ st.execs, (entriesFor st.updateTrace e.id).getLast? = some (e.status, e.outputSignal)) ∧
  (∀ t ∈ st.updateTrace, t.1 < st.nextExecId) ∧
  (∀ e ∈ st.execs, e.id < st.nextExecId) ∧
  (st.execs.map (fun e => e.id)).Nodup

/-! ## Concrete scenarios used by counterexamples and witnesses -/

/-- A sample newly created Run. -/
def runW : Run :=
  { id := 1, createdAt := 0, completedAt := none, initialPrompt := "task"
    specName := "wf", workspacePath := "/ws", status := RunStatus.pending
    currentAgent := "", error := "", waitingReason := "", waitingSessionID := "" }

/-- Agent behaviour: every spawn succeeds and writes `{status: DONE}`. -/
def oracleDone : Oracle := fun n =>
  AgentOutcome.ran ("s" ++ toString n) 0 (some [("status", SVal.s "DONE")])

/-- Agent behaviour: every spawn succeeds and writes `{status: OK}`. -/
def oracleOK : Oracle := fun n =>
  AgentOutcome.ran ("t" ++ toString n) 0 (some [("status", SVal.s "OK")])

/-- Agent behaviour: the agent asks for a human. -/
def oracleNH : Oracle := fun _ =>
  AgentOutcome.ran "sess7" 0
    (some [("status", SVal.s "NEEDS_HUMAN"), ("reason", SVal.s "clarify auth")])

/-- Agent behaviour: first spawn writes `{status: DONE}`, the second exits
without writing any signal file. -/
def oracleStale : Oracle := fun n =>
  if n == 0 then AgentOutcome.ran "s0" 0 (some [("status", SVal.s "DONE")])
  else AgentOutcome.ran "s1" 0 none

/-- Agent behaviour: the `claude` binary cannot be launched. -/
def oracleNoLaunch : Oracle := fun _ =>
  AgentOutcome.launchFail "claude: executable not found"

/-- Agent behaviour: every spawn succeeds but never writes a signal file. -/
def oracleNoWrite : Oracle := fun n =>
  AgentOutcome.ran ("u" ++ toString n) 1 none

/-- State after one completed execution of the one-call script
`run("a", "p")`. -/
def stDoneA : EngineState :=
  (executeLua oracleDone [ScriptOp.runA "a" "p"] (initEngineState runW)).2

/-- Crash state: the engine died while agent `a` was running at call index 1;
the agent finished and its signal file is on disk
(spec §8 end-to-end scenario 4). -/
def stCrashRunning : EngineState :=
  { initEngineState runW with
      execs := [{ id := 1, runId := 1, agentName := "a", claudeSessionID := "sOld"
                  status := ExecStatus.running, exitCode := none, startedAt := some 0
                  completedAt := none, outputSignal := none, sequenceNum := 1
                  callIndex := 1, prompt := "p0", pid := none }]
      nextExecId := 2
      fsSignals := [("a", [("status", SVal.s "DONE")])]
      clock := 1
      updateTrace := [(1, ExecStatus.pending, none), (1, ExecStatus.running, none)] }

/-- Suspended state: execution 1 is `waiting_human` for agent `a` and the
on-disk signal still says NEEDS_HUMAN. -/
def stWaitingNH : EngineState :=
  { initEngineState runW with
      execs := [{ id := 1, runId := 1, agentName := "a", claudeSessionID := "sOld"
                  status := ExecStatus.waitingHuman, exitCode := none, startedAt := some 0
                  completedAt := none
                  outputSignal := some [("status", SVal.s "NEEDS_HUMAN")]
                  sequenceNum := 1, callIndex := 1, prompt := "p0", pid := none }]
      nextExecId := 2
      fsSignals := [("a", [("status", SVal.s "NEEDS_HUMAN")])]
      clock := 1
      updateTrace := [(1, ExecStatus.pending, none), (1, ExecStatus.running, none)] }

/-! # Lemmas and claim theorems -/

theorem fsGet_fsSet_self (fs : SignalFS) (k : String) (v : Signal) :
    fsGet (fsSet fs k v) k = some v := by
  induction fs with
  | nil => simp [fsSet, fsGet]
  | cons h t ih =>
      obtain ⟨k0, v0⟩ := h
      by_cases hk : k0 = k
      · simp [fsSet, hk, fsGet]
      · simp [fsSet, hk, fsGet, ih]

theorem sigGet_sigSet_ne (s : Signal) (k k2 : String) (v : SVal) (h : k2 ≠ k) :
    sigGet (sigSet s k v) k2 = sigGet s k2 := by
  induction s with
  | nil => simp [sigSet, sigGet, Ne.symm h]
  | cons hd t ih =>
      obtain ⟨k0, v0⟩ := hd
      by_cases hk : k0 = k
      · subst hk
        simp [sigSet, sigGet, Ne.symm h]
      · simp [sigSet, hk, sigGet, ih]

/-- Shared helper: a `run()` call that finds a complete record whose agent
name matches returns the cached signal and advances only the call index
(runtime.go:168-175 together with the no-op mismatch check). -/
theorem luaRun_cached (oracle : Oracle) (agent prompt : String)
    (st : EngineState) (exec : Execution) (sig : Signal)
    (h1 : getExecutionByCallIndex st.execs st.run.id (st.callIndex + 1) = some exec)
    (h2 : exec.status = ExecStatus.complete)
    (h3 : exec.agentName = agent)
    (h4 : exec.outputSignal = some sig) :
    luaRun oracle agent prompt st =
      (LuaOutcome.value sig, { st with callIndex := st.callIndex + 1 }) := by
  unfold luaRun
  simp only [h1, h2, h4, mismatchCheck, h3]
  simp

/-- **C1** — counterexample.  The claim quantifies over every `run()` call
that finds a complete record, including a call requesting a different agent
(spec scenario 5: script edited between executions).  There the engine does
invoke the agent and returns a fresh signal, not the cached one: after the
one-call script `run("a","p")` completes, resuming with the edited script
`run("b","p")` finds the complete record for `a` yet spawns `b`. -/
theorem C1_counterexample :
    (getExecutionByCallIndex stDoneA.execs stDoneA.run.id 1).map
        (fun e => (e.status, e.agentName, e.outputSignal)) =
      some (ExecStatus.complete, "a", some [("status", SVal.s "DONE")]) ∧
    (resumeRun oracleOK [ScriptOp.runA "b" "p"] stDoneA).2.invocations ≠
      stDoneA.invocations ∧
    (resumeRun oracleOK [ScriptOp.runA "b" "p"] stDoneA).2.returnedSignals ≠
      [[("status", SVal.s "DONE")]] := by
  refine ⟨by decide, by decide, by decide⟩

/-- **C1** (amended): for every `run()` call whose `(run_id, call_index)` key
has an execution record in status complete *and whose stored agent name equals
the requested agent*, the engine returns that record's cached signal to the
script and does not invoke the external agent (the state is unchanged apart
from the call index, so no invocation, no new record, no storage write). -/
theorem C1_cached_signal_no_invocation (oracle : Oracle) (agent prompt : String)
    (st : EngineState) (exec : Execution) (sig : Signal)
    (h1 : getExecutionByCallIndex st.execs st.run.id (st.callIndex + 1) = some exec)
    (h2 : exec.status = ExecStatus.complete)
    (h3 : exec.agentName = agent)
    (h4 : exec.outputSignal = some sig) :
    luaRun oracle agent prompt st =
      (LuaOutcome.value sig, { st with callIndex := st.callIndex + 1 }) :=
  luaRun_cached oracle agent prompt st exec sig h1 h2 h3 h4

/-- **C1** — witness: the amended theorem applied to the concrete completed
state `stDoneA` with the matching agent `a`. -/
theorem C1_cached_signal_no_invocation_witness :
    luaRun oracleOK "a" "p" (freshRuntime stDoneA) =
      (LuaOutcome.value [("status", SVal.s "DONE")],
       { freshRuntime stDoneA with callIndex := 1 }) :=
  C1_cached_signal_no_invocation oracleOK "a" "p" (freshRuntime stDoneA)
    { id := 1, runId := 1, agentName := "a", claudeSessionID := "s0"
      status := ExecStatus.complete, exitCode := some 0, startedAt := some 0
      completedAt := some 1, outputSignal := some [("status", SVal.s "DONE")]
      sequenceNum := 1, callIndex := 1, prompt := "p", pid := none }
    [("status", SVal.s "DONE")] (by decide) rfl rfl rfl

/-- **C10**: the claim (and spec §4.3/§5) says every agent child is spawned in
its own new process group so that `kill(-pid)` terminates the agent and its
descendants.  `runClaude` never sets `SysProcAttr.Setpgid`, so the agent
inherits the engine's process group: `syscall.Kill(-PID, SIGKILL)` in
`KillRun` targets a group the agent does not lead and reaches neither the
agent nor its descendants, while the spec-described spawn attributes do give
containment. -/
theorem C10_no_new_process_group :
    runClaudeSpawnAttrs.setpgid = false ∧
    specSupervisorSpawnAttrs.setpgid = true ∧
    (spawnChild { pid := 50, pgid := 50 } 200 runClaudeSpawnAttrs).pgid = 50 ∧
    signalReaches (killRunTargetGroup 200)
      (spawnChild { pid := 50, pgid := 50 } 200 runClaudeSpawnAttrs) = false ∧
    signalReaches (killRunTargetGroup 200)
      (spawnChild (spawnChild { pid := 50, pgid := 50 } 200 runClaudeSpawnAttrs)
        300 { setpgid := false }) = false ∧
    signalReaches (killRunTargetGroup 200)
      (spawnChild { pid := 50, pgid := 50 } 200 specSupervisorSpawnAttrs) = true ∧
    signalReaches (killRunTargetGroup 200)
      (spawnChild (spawnChild { pid := 50, pgid := 50 } 200 specSupervisorSpawnAttrs)
        300 { setpgid := false }) = true := by
  decide

theorem map_replace_of_ne (l : List Execution) (e : Execution)
    (h : ∀ x ∈ l, ¬ x.id = e.id) :
    l.map (fun x => if x.id = e.id then e else x) = l := by
  induction l with
  | nil => rfl
  | cons hd tl ih =>
      simp only [List.map_cons]
      rw [if_neg (h hd (by simp)), ih (fun x hx => h x (by simp [hx]))]

theorem map_replace_replace (l : List Execution) (a b : Execution)
    (h : b.id = a.id) :
    (l.map (fun x => if x.id = a.id then a else x)).map
        (fun x => if x.id = b.id then b else x) =
      l.map (fun x => if x.id = b.id then b else x) := by
  induction l with
  | nil => rfl
  | cons hd tl ih =>
      simp only [List.map_cons]
      rw [ih]
      congr 1
      by_cases hx : hd.id = a.id
      · rw [if_pos hx, if_pos h.symm, if_pos (hx.trans h.symm)]
      · rw [if_neg hx]

theorem map_eq_self_of_fix (l : List Execution) (f : Execution → Execution)
    (h : ∀ x ∈ l, f x = x) : l.map f = l := by
  induction l with
  | nil => rfl
  | cons hd tl ih => simp [h hd (by simp), ih (fun x hx => h x (by simp [hx]))]

/-- `runAgent`, launch-failure case: the record is marked failed and a
synthetic ERROR signal is returned with a nil error. -/
theorem runAgent_launchFail (oracle : Oracle) (agent prompt : String)
    (exec0 : Execution) (st : EngineState) (msg : String)
    (ho : oracle st.invokeCount = AgentOutcome.launchFail msg) :
    runAgent oracle agent prompt exec0 st =
      (Except.ok [("status", SVal.s "ERROR"),
                  ("reason", SVal.s ("agent execution failed: " ++ msg))],
       { st with
           run := { st.run with currentAgent := agent }
           clock := st.clock + 1
           invokeCount := st.invokeCount + 1
           execs := st.execs.map (fun x =>
             if x.id = exec0.id then
               { exec0 with startedAt := some st.clock, status := ExecStatus.failed }
             else x)
           updateTrace := st.updateTrace ++
             [(exec0.id, ExecStatus.running, exec0.outputSignal),
              (exec0.id, ExecStatus.failed, exec0.outputSignal)] }) := by
  unfold runAgent updateExecution
  simp only [ho]
  simp
  intro a ha
  by_cases hx : a.id = exec0.id <;> simp [hx]

/-- `runAgent`, signal-file-missing case: the spawn succeeds but afterwards no
signal file for the agent exists; the record is marked failed and a synthetic
ERROR signal is returned. -/
theorem runAgent_noSignal (oracle : Oracle) (agent prompt : String)
    (exec0 : Execution) (st : EngineState)
    (sid : String) (code : Int) (writes : Option Signal)
    (ho : oracle st.invokeCount = AgentOutcome.ran sid code writes)
    (hg : fsGet (fsAfterWrite st.fsSignals agent writes) agent = none) :
    runAgent oracle agent prompt exec0 st =
      (Except.ok [("status", SVal.s "ERROR"),
                  ("reason", SVal.s ("no signal produced: signal file not found for agent " ++ agent))],
       { st with
           run := { st.run with currentAgent := agent }
           clock := st.clock + 1
           invokeCount := st.invokeCount + 1
           invocations := st.invocations ++ [(exec0.callIndex, agent)]
           fsSignals := fsAfterWrite st.fsSignals agent writes
           execs := st.execs.map (fun x =>
             if x.id = exec0.id then
               { exec0 with startedAt := some st.clock, status := ExecStatus.failed }
             else x)
           updateTrace := st.updateTrace ++
             [(exec0.id, ExecStatus.running, exec0.outputSignal),
              (exec0.id, ExecStatus.failed, exec0.outputSignal)] }) := by
  unfold runAgent updateExecution
  simp only [ho, hg]
  simp
  intro a ha
  by_cases hx : a.id = exec0.id <;> simp [hx]

/-- `runAgent`, successful case with a non-NEEDS_HUMAN signal: the record is
finalized complete, context is appended, and the signal is returned with
`_session_id` injected. -/
theorem runAgent_ok (oracle : Oracle) (agent prompt : String)
    (exec0 : Execution) (st : EngineState)
    (sid : String) (code : Int) (writes : Option Signal) (s : Signal)
    (ho : oracle st.invokeCount = AgentOutcome.ran sid code writes)
    (hg : fsGet (fsAfterWrite st.fsSignals agent writes) agent = some s)
    (hns : ¬ sigGet s "status" = some (SVal.s "NEEDS_HUMAN")) :
    runAgent oracle agent prompt exec0 st =
      (Except.ok (sigSet s "_session_id" (SVal.s sid)),
       { st with
           run := { st.run with currentAgent := agent }
           clock := st.clock + 2
           invokeCount := st.invokeCount + 1
           invocations := st.invocations ++ [(exec0.callIndex, agent)]
           fsSignals := fsAfterWrite st.fsSignals agent writes
           contextLog := st.contextLog ++ [(agent, s)]
           execs := st.execs.map (fun x =>
             if x.id = exec0.id then
               { exec0 with
                   startedAt := some st.clock
                   claudeSessionID := sid
                   exitCode := some code
                   completedAt := some (st.clock + 1)
                   outputSignal := some s
                   status := ExecStatus.complete }
             else x)
           updateTrace := st.updateTrace ++
             [(exec0.id, ExecStatus.running, exec0.outputSignal),
              (exec0.id, ExecStatus.complete, some s)] }) := by
  unfold runAgent updateExecution
  simp only [ho, hg]
  simp [hns]
  intro a ha
  by_cases hx : a.id = exec0.id <;> simp [hx]

/-- `runAgent`, NEEDS_HUMAN case: the record is written complete and then
overwritten to waiting_human, the suspension flags are set, and a non-nil
error is returned. -/
theorem runAgent_needsHuman (oracle : Oracle) (agent prompt : String)
    (exec0 : Execution) (st : EngineState)
    (sid : String) (code : Int) (writes : Option Signal) (s : Signal)
    (ho : oracle st.invokeCount = AgentOutcome.ran sid code writes)
    (hg : fsGet (fsAfterWrite st.fsSignals agent writes) agent = some s)
    (hs : sigGet s "status" = some (SVal.s "NEEDS_HUMAN")) :
    runAgent oracle agent prompt exec0 st =
      (Except.error ("agent " ++ agent ++ " needs human input: " ++ reasonOf s),
       { st with
           run := { st.run with currentAgent := agent }
           clock := st.clock + 2
           invokeCount := st.invokeCount + 1
           invocations := st.invocations ++ [(exec0.callIndex, agent)]
           fsSignals := fsAfterWrite st.fsSignals agent writes
           execs := st.execs.map (fun x =>
             if x.id = exec0.id then
               { exec0 with
                   startedAt := some st.clock
                   claudeSessionID := sid
                   exitCode := some code
                   completedAt := some (st.clock + 1)
                   outputSignal := some s
                   status := ExecStatus.waitingHuman }
             else x)
           updateTrace := st.updateTrace ++
             [(exec0.id, ExecStatus.running, exec0.outputSignal),
              (exec0.id, ExecStatus.complete, some s),
              (exec0.id, ExecStatus.waitingHuman, some s)]
           waitingHuman := true
           waitingSessionID := sid
           waitingAgent := agent
           waitingExecID := exec0.id
           waitingReason := reasonOf s }) := by
  unfold runAgent updateExecution
  simp only [ho, hg]
  simp [hs]
  intro a ha
  by_cases hx : a.id = exec0.id <;> simp [hx]

theorem runAgentFresh_eq (oracle : Oracle) (agent prompt : String)
    (st : EngineState) :
    runAgentFresh oracle agent prompt st =
      runAgent oracle agent prompt (freshExecRecord st agent prompt)
        { st with
            execs := st.execs ++ [freshExecRecord st agent prompt]
            nextExecId := st.nextExecId + 1
            updateTrace := st.updateTrace ++
              [(st.nextExecId, ExecStatus.pending, none)] } := by
  unfold runAgentFresh createExecution freshExecRecord
  simp

/-- **C3**: a fresh `run()` call whose agent signal has status NEEDS_HUMAN
sets the Execution record to waiting_human, sets the Run to waiting_human with
the signal's reason and the session id recorded, and unwinds the script: the
remaining operations are not executed, no value is handed to the script
(`returnedSignals` is unchanged), and exactly one record was appended. -/
theorem C3_needs_human_suspends (oracle : Oracle) (agent prompt : String)
    (rest : List ScriptOp) (st : EngineState)
    (sid : String) (code : Int) (writes : Option Signal) (s : Signal)
    (reason : String)
    (hfind : getExecutionByCallIndex st.execs st.run.id (st.callIndex + 1) = none)
    (ho : oracle st.invokeCount = AgentOutcome.ran sid code writes)
    (hg : fsGet (fsAfterWrite st.fsSignals agent writes) agent = some s)
    (hs : sigGet s "status" = some (SVal.s "NEEDS_HUMAN"))
    (hr : sigGet s "reason" = some (SVal.s reason))
    (hstuck : st.isStuck = false)
    (hfresh : ∀ x ∈ st.execs, ¬ x.id = st.nextExecId) :
    ExecuteScript oracle (ScriptOp.runA agent prompt :: rest) st =
      (ExecResult.errWaitingHuman,
       { st with
           run := { st.run with
               currentAgent := agent
               status := RunStatus.waitingHuman
               waitingReason := reason
               waitingSessionID := sid }
           execs := st.execs ++
             [{ id := st.nextExecId, runId := st.run.id, agentName := agent
                claudeSessionID := sid, status := ExecStatus.waitingHuman
                exitCode := some code, startedAt := some st.clock
                completedAt := some (st.clock + 1), outputSignal := some s
                sequenceNum := (executionsForRun st.execs st.run.id).length + 1
                callIndex := st.callIndex + 1, prompt := prompt, pid := none }]
           nextExecId := st.nextExecId + 1
           callIndex := st.callIndex + 1
           fsSignals := fsAfterWrite st.fsSignals agent writes
           clock := st.clock + 2
           invokeCount := st.invokeCount + 1
           invocations := st.invocations ++ [(st.callIndex + 1, agent)]
           updateTrace := st.updateTrace ++
             [(st.nextExecId, ExecStatus.pending, none),
              (st.nextExecId, ExecStatus.running, none),
              (st.nextExecId, ExecStatus.complete, some s),
              (st.nextExecId, ExecStatus.waitingHuman, some s)]
           waitingHuman := true
           waitingSessionID := sid
           waitingAgent := agent
           waitingExecID := st.nextExecId
           waitingReason := reason }) := by
  have hreason : reasonOf s = reason := by unfold reasonOf; rw [hr]
  unfold ExecuteScript runScript luaRun runAgentFresh createExecution runAgent
    updateExecution
  simp only [hfind]
  simp only [ho, hg]
  simp [hs, hstuck, markWaitingHuman, hreason, List.map_append]
  apply map_eq_self_of_fix
  intro x hx
  simp [Function.comp, hfresh x hx]

/-- **C3** — witness: the theorem applied to a fresh run whose first agent
answers NEEDS_HUMAN with reason "clarify auth" (spec scenario 3). -/
theorem C3_needs_human_suspends_witness :
    (ExecuteScript oracleNH
        [ScriptOp.runA "helper" "p", ScriptOp.runA "b" "q"]
        (initEngineState runW)).1 = ExecResult.errWaitingHuman ∧
    (ExecuteScript oracleNH
        [ScriptOp.runA "helper" "p", ScriptOp.runA "b" "q"]
        (initEngineState runW)).2.run.status = RunStatus.waitingHuman ∧
    (ExecuteScript oracleNH
        [ScriptOp.runA "helper" "p", ScriptOp.runA "b" "q"]
        (initEngineState runW)).2.run.waitingReason = "clarify auth" ∧
    (ExecuteScript oracleNH
        [ScriptOp.runA "helper" "p", ScriptOp.runA "b" "q"]
        (initEngineState runW)).2.run.waitingSessionID = "sess7" ∧
    (ExecuteScript oracleNH
        [ScriptOp.runA "helper" "p", ScriptOp.runA "b" "q"]
        (initEngineState runW)).2.execs.map (fun e => e.status) =
      [ExecStatus.waitingHuman] ∧
    (ExecuteScript oracleNH
        [ScriptOp.runA "helper" "p", ScriptOp.runA "b" "q"]
        (initEngineState runW)).2.returnedSignals = [] := by
  have h := C3_needs_human_suspends oracleNH "helper" "p" [ScriptOp.runA "b" "q"]
    (initEngineState runW) "sess7" 0
    (some [("status", SVal.s "NEEDS_HUMAN"), ("reason", SVal.s "clarify auth")])
    [("status", SVal.s "NEEDS_HUMAN"), ("reason", SVal.s "clarify auth")]
    "clarify auth" (by decide) rfl (by decide) (by decide) (by decide) rfl
    (by simp [initEngineState])
  rw [h]
  decide

/-- **C4** — counterexample.  The claim quantifies over every `run()` call
finding a running/waiting record; when the requested agent differs from the
stored one (script edited before resume), the record is finalized from the
on-disk signal but the engine then *does* invoke an agent (divergence
fresh-run), contradicting "the agent is not re-invoked". -/
theorem C4_counterexample :
    (getExecutionByCallIndex stCrashRunning.execs stCrashRunning.run.id 1).map
        (fun e => (e.status, e.agentName)) = some (ExecStatus.running, "a") ∧
    fsGet stCrashRunning.fsSignals "a" = some [("status", SVal.s "DONE")] ∧
    (luaRun oracleOK "b" "q" stCrashRunning).2.invocations ≠
      stCrashRunning.invocations := by
  refine ⟨by decide, by decide, by decide⟩

/-- **C4** (amended): for a `run()` call that finds a record in status
running or waiting_human *whose stored agent name equals the requested one*:
(A) if the signal file exists with a non-NEEDS_HUMAN status, the record is
finalized complete from the file and the agent is not re-invoked (state
changes only by the finalization); (B) if the file is absent, the agent is
re-run; (C) if the file says NEEDS_HUMAN, the engine re-enters the waiting
state without touching the record. -/
theorem C4_recovery (oracle : Oracle) (agent prompt : String)
    (st : EngineState) (exec : Execution)
    (hfind : getExecutionByCallIndex st.execs st.run.id (st.callIndex + 1) = some exec)
    (hst : exec.status = ExecStatus.running ∨ exec.status = ExecStatus.waitingHuman)
    (hname : exec.agentName = agent) :
    (∀ s, fsGet st.fsSignals exec.agentName = some s →
      ¬ sigGet s "status" = some (SVal.s "NEEDS_HUMAN") →
      luaRun oracle agent prompt st =
        (LuaOutcome.value s,
         { st with
             callIndex := st.callIndex + 1
             clock := st.clock + 1
             execs := st.execs.map (fun x =>
               if x.id = exec.id then
                 { exec with
                     completedAt := some st.clock
                     outputSignal := some s
                     status := ExecStatus.complete }
               else x)
             updateTrace := st.updateTrace ++
               [(exec.id, ExecStatus.complete, some s)]
             contextLog := st.contextLog ++ [(exec.agentName, s)] })) ∧
    (fsGet st.fsSignals exec.agentName = none →
      ∀ sid code w, oracle st.invokeCount = AgentOutcome.ran sid code w →
      (luaRun oracle agent prompt st).2.invocations =
        st.invocations ++ [(exec.callIndex, exec.agentName)]) ∧
    (∀ s, fsGet st.fsSignals exec.agentName = some s →
      sigGet s "status" = some (SVal.s "NEEDS_HUMAN") →
      luaRun oracle agent prompt st =
        (LuaOutcome.raised ("waiting for human: " ++ reasonOf s),
         { st with
             callIndex := st.callIndex + 1
             waitingHuman := true
             waitingSessionID := exec.claudeSessionID
             waitingAgent := exec.agentName
             waitingExecID := exec.id
             waitingReason := reasonOf s })) := by
  have hne : ¬ exec.status = ExecStatus.complete := by
    rcases hst with h | h <;> simp [h]
  refine ⟨?_, ?_, ?_⟩
  · intro s hg hns
    unfold luaRun recoverExecution updateExecution mismatchCheck
    simp only [hfind, hne, hst, hg]
    simp [hns, hname]
  · intro hg sid code w ho
    unfold luaRun recoverExecution
    simp only [hfind, hne, hst, hg, ite_true, ite_false]
    by_cases hga : fsGet (fsAfterWrite st.fsSignals exec.agentName w) exec.agentName = none
    · rw [runAgent_noSignal oracle exec.agentName exec.prompt exec
          { st with callIndex := st.callIndex + 1 } sid code w ho hga]
      simp [mismatchCheck, hname]
    · obtain ⟨s2, hs2⟩ := Option.ne_none_iff_exists'.mp hga
      by_cases hnh : sigGet s2 "status" = some (SVal.s "NEEDS_HUMAN")
      · rw [runAgent_needsHuman oracle exec.agentName exec.prompt exec
            { st with callIndex := st.callIndex + 1 } sid code w s2 ho hs2 hnh]
        simp
      · rw [runAgent_ok oracle exec.agentName exec.prompt exec
            { st with callIndex := st.callIndex + 1 } sid code w s2 ho hs2 hnh]
        simp [mismatchCheck, hname]
  · intro s hg hnh
    unfold luaRun recoverExecution
    simp only [hfind, hne, hst, hg]
    simp [hnh]

/-- **C4** — witness: the amended theorem applied to the crash state
`stCrashRunning` with the matching agent `a` and the on-disk `{status: DONE}`
signal: the record is finalized complete and no agent is invoked. -/
theorem C4_recovery_witness :
    (luaRun oracleOK "a" "q" stCrashRunning).1 =
      LuaOutcome.value [("status", SVal.s "DONE")] ∧
    (luaRun oracleOK "a" "q" stCrashRunning).2.invocations = [] ∧
    (luaRun oracleOK "a" "q" stCrashRunning).2.execs.map
        (fun e => (e.status, e.outputSignal)) =
      [(ExecStatus.complete, some [("status", SVal.s "DONE")])] := by
  have h := (C4_recovery oracleOK "a" "q" stCrashRunning
      { id := 1, runId := 1, agentName := "a", claudeSessionID := "sOld"
        status := ExecStatus.running, exitCode := none, startedAt := some 0
        completedAt := none, outputSignal := none, sequenceNum := 1
        callIndex := 1, prompt := "p0", pid := none }
      (by decide) (Or.inl rfl) rfl).1
      [("status", SVal.s "DONE")] (by decide) (by decide)
  rw [h]
  decide

/-- **C5**: an uncaught script error that is not tagged as a suspension or a
`stuck()` call makes the Run `failed` with the wrapped error message stored
(Execute returns the wrapped error; the orchestrator wrapper, modelled from
the spec, records it on the Run). -/
theorem C5_script_error_fails_run (oracle : Oracle) (script : List ScriptOp)
    (st : EngineState) (msg : String) (st1 : EngineState)
    (hrun : runScript oracle script (withRunning st) =
      (ScriptResult.errored msg, st1))
    (hstuck : st1.isStuck = false)
    (hwait : st1.waitingHuman = false) :
    executeLua oracle script st =
      (ExecResult.scriptError ("workflow execution failed: " ++ msg),
       { st1 with
           run := { st1.run with
               status := RunStatus.failed
               error := "workflow execution failed: " ++ msg
               completedAt := some st1.clock }
           clock := st1.clock + 1 }) := by
  unfold executeLua ExecuteScript
  rw [hrun]
  simp [hstuck, hwait]

/-- **C5** — witness: a script that raises `error("boom")` before any
`run()` call. -/
theorem C5_script_error_fails_run_witness :
    executeLua oracleDone [ScriptOp.raiseErr "boom"] (initEngineState runW) =
      (ExecResult.scriptError "workflow execution failed: boom",
       { initEngineState runW with
           run := { runW with
               status := RunStatus.failed
               error := "workflow execution failed: boom"
               completedAt := some 0 }
           clock := 1 }) := by
  have h := C5_script_error_fails_run oracleDone [ScriptOp.raiseErr "boom"]
    (initEngineState runW) "boom" (withRunning (initEngineState runW))
    rfl rfl rfl
  rw [h]
  decide

/-- **C6** — counterexample.  The claim covers every `run()` call whose agent
exits without writing a signal file; but signal files are never consumed, so
when the same agent ran before, the stale file satisfies `ReadSignal` and the
engine finalizes the execution as complete with the stale contents instead of
marking it failed and returning `{status: ERROR}`. -/
theorem C6_counterexample :
    oracleStale 1 = AgentOutcome.ran "s1" 0 none ∧
    (executeLua oracleStale [ScriptOp.runA "a" "p", ScriptOp.runA "a" "q"]
        (initEngineState runW)).2.execs.map (fun e => (e.callIndex, e.status)) =
      [(1, ExecStatus.complete), (2, ExecStatus.complete)] ∧
    (executeLua oracleStale [ScriptOp.runA "a" "p", ScriptOp.runA "a" "q"]
        (initEngineState runW)).2.returnedSignals.map
        (fun s => sigGet s "status") =
      [some (SVal.s "DONE"), some (SVal.s "DONE")] := by
  refine ⟨rfl, by decide, by decide⟩

/-- **C6** (amended): for every fresh `run()` call, (a) if the agent fails to
launch, the new Execution is marked failed and `run()` returns
`{status: ERROR, reason: ...}` as a value (no error raised); (b) likewise if
the agent exits without writing a signal file *and no signal file for that
agent already exists in the workspace* (stale files are otherwise read as if
the agent had produced them). -/
theorem C6_operational_failures_return_error_signal (oracle : Oracle)
    (agent prompt : String) (st : EngineState)
    (hfind : getExecutionByCallIndex st.execs st.run.id (st.callIndex + 1) = none)
    (hfresh : ∀ x ∈ st.execs, ¬ x.id = st.nextExecId) :
    (∀ msg, oracle st.invokeCount = AgentOutcome.launchFail msg →
      luaRun oracle agent prompt st =
        (LuaOutcome.value [("status", SVal.s "ERROR"),
           ("reason", SVal.s ("agent execution failed: " ++ msg))],
         { st with
             run := { st.run with currentAgent := agent }
             execs := st.execs ++
               [{ id := st.nextExecId, runId := st.run.id, agentName := agent
                  claudeSessionID := "", status := ExecStatus.failed
                  exitCode := none, startedAt := some st.clock
                  completedAt := none, outputSignal := none
                  sequenceNum := (executionsForRun st.execs st.run.id).length + 1
                  callIndex := st.callIndex + 1, prompt := prompt, pid := none }]
             nextExecId := st.nextExecId + 1
             callIndex := st.callIndex + 1
             clock := st.clock + 1
             invokeCount := st.invokeCount + 1
             updateTrace := st.updateTrace ++
               [(st.nextExecId, ExecStatus.pending, none),
                (st.nextExecId, ExecStatus.running, none),
                (st.nextExecId, ExecStatus.failed, none)] })) ∧
    (∀ sid code w, oracle st.invokeCount = AgentOutcome.ran sid code w →
      fsGet (fsAfterWrite st.fsSignals agent w) agent = none →
      luaRun oracle agent prompt st =
        (LuaOutcome.value [("status", SVal.s "ERROR"),
           ("reason", SVal.s ("no signal produced: signal file not found for agent " ++ agent))],
         { st with
             run := { st.run with currentAgent := agent }
             execs := st.execs ++
               [{ id := st.nextExecId, runId := st.run.id, agentName := agent
                  claudeSessionID := "", status := ExecStatus.failed
                  exitCode := none, startedAt := some st.clock
                  completedAt := none, outputSignal := none
                  sequenceNum := (executionsForRun st.execs st.run.id).length + 1
                  callIndex := st.callIndex + 1, prompt := prompt, pid := none }]
             nextExecId := st.nextExecId + 1
             callIndex := st.callIndex + 1
             clock := st.clock + 1
             invokeCount := st.invokeCount + 1
             invocations := st.invocations ++ [(st.callIndex + 1, agent)]
             fsSignals := fsAfterWrite st.fsSignals agent w
             updateTrace := st.updateTrace ++
               [(st.nextExecId, ExecStatus.pending, none),
                (st.nextExecId, ExecStatus.running, none),
                (st.nextExecId, ExecStatus.failed, none)] })) := by
  constructor
  · intro msg ho
    unfold luaRun runAgentFresh createExecution runAgent updateExecution
    simp only [hfind]
    simp only [ho]
    simp [List.map_append]
    apply map_eq_self_of_fix
    intro x hx
    simp [Function.comp, hfresh x hx]
  · intro sid code w ho hg
    unfold luaRun runAgentFresh createExecution runAgent updateExecution
    simp only [hfind]
    simp only [ho, hg]
    simp [List.map_append]
    apply map_eq_self_of_fix
    intro x hx
    simp [Function.comp, hfresh x hx]

/-- **C6** — witness: the amended theorem applied to a fresh run whose agent
cannot be launched, and to one whose agent runs but writes nothing into an
empty workspace. -/
theorem C6_operational_failures_witness :
    (luaRun oracleNoLaunch "a" "p" (initEngineState runW)).1 =
      LuaOutcome.value [("status", SVal.s "ERROR"),
        ("reason", SVal.s "agent execution failed: claude: executable not found")] ∧
    (luaRun oracleNoLaunch "a" "p" (initEngineState runW)).2.execs.map
        (fun e => e.status) = [ExecStatus.failed] ∧
    (luaRun oracleNoWrite "a" "p" (initEngineState runW)).1 =
      LuaOutcome.value [("status", SVal.s "ERROR"),
        ("reason", SVal.s "no signal produced: signal file not found for agent a")] ∧
    (luaRun oracleNoWrite "a" "p" (initEngineState runW)).2.execs.map
        (fun e => e.status) = [ExecStatus.failed] := by
  have h1 := (C6_operational_failures_return_error_signal oracleNoLaunch "a" "p"
    (initEngineState runW) (by decide) (by simp [initEngineState])).1
    "claude: executable not found" rfl
  have h2 := (C6_operational_failures_return_error_signal oracleNoWrite "a" "p"
    (initEngineState runW) (by decide) (by simp [initEngineState])).2
    "u0" 1 none rfl (by decide)
  rw [h1, h2]
  decide

/-- **C7** — counterexample.  The claim covers every `run()` call that finds
a record with a differing agent name; but when that record is running or
waiting_human and the on-disk signal still says NEEDS_HUMAN, the engine
re-suspends *before* the divergence check: no warning is logged, nothing is
invalidated, no fresh run happens. -/
theorem C7_counterexample :
    (getExecutionByCallIndex stWaitingNH.execs stWaitingNH.run.id 1).map
        (fun e => e.agentName) = some "a" ∧
    "a" ≠ "b" ∧
    (luaRun oracleOK "b" "q" stWaitingNH).1 =
      LuaOutcome.raised "waiting for human: Agent needs human input" ∧
    (luaRun oracleOK "b" "q" stWaitingNH).2.logs = stWaitingNH.logs ∧
    (luaRun oracleOK "b" "q" stWaitingNH).2.execs = stWaitingNH.execs ∧
    (luaRun oracleOK "b" "q" stWaitingNH).2.invocations =
      stWaitingNH.invocations := by
  refine ⟨by decide, by decide, by decide, by decide, by decide, by decide⟩

/-- **C7** (amended): when a `run()` call finds a record whose stored agent
name differs and the pre-divergence status handling yields a signal (always
the case for a complete record), the engine logs a determinism warning,
invalidates every record of the run with call_index greater than
call_index - 1, appends a fresh execution for the requested agent, and hands
the fresh signal to the script with no error; if instead the recovery of a
running/waiting record re-suspends (NEEDS_HUMAN on disk), none of this
happens (see the counterexample). -/
theorem C7_divergence_handling (oracle : Oracle) (agent prompt : String)
    (exec : Execution) (sig : Signal) (st : EngineState) :
    (∀ sig2 st3, exec.agentName ≠ agent →
      runAgentFresh oracle agent prompt
        (invalidateExecutionsAfterIndex
          { st with logs := st.logs ++
              ["WARNING: determinism violation at call " ++ toString st.callIndex ++
               ": expected " ++ exec.agentName ++ ", got " ++ agent] }
          st.run.id (st.callIndex - 1)) = (Except.ok sig2, st3) →
      mismatchCheck oracle agent prompt exec sig st = (LuaOutcome.value sig2, st3)) ∧
    (∀ runId ci (stX : EngineState), ∀ e ∈ stX.execs, e.runId = runId →
      ci < e.callIndex →
      e ∉ (invalidateExecutionsAfterIndex stX runId ci).execs) ∧
    (getExecutionByCallIndex st.execs st.run.id (st.callIndex + 1) = some exec →
      exec.status = ExecStatus.complete →
      exec.outputSignal = some sig →
      luaRun oracle agent prompt st =
        mismatchCheck oracle agent prompt exec sig
          { st with callIndex := st.callIndex + 1 }) := by
  refine ⟨?_, ?_, ?_⟩
  · intro sig2 st3 hne hfr
    unfold mismatchCheck
    rw [if_pos hne]
    simp only [hfr]
  · intro runId ci stX e he h1 h2
    simp [invalidateExecutionsAfterIndex, List.mem_filter, h1, h2]
  · intro hfind hcomp hsig
    unfold luaRun
    simp only [hfind, hcomp, hsig]
    simp

/-- **C7** — witness: resuming the completed one-call Run with the edited
script requesting agent `b` logs the divergence warning, replaces the log
tail with a fresh execution of `b`, and hands the fresh signal to the
script. -/
theorem C7_divergence_handling_witness :
    (luaRun oracleOK "b" "p" (freshRuntime stDoneA)).2.logs =
      ["WARNING: determinism violation at call 1: expected a, got b"] ∧
    (luaRun oracleOK "b" "p" (freshRuntime stDoneA)).1 =
      LuaOutcome.value [("status", SVal.s "OK"), ("_session_id", SVal.s "t1")] ∧
    (luaRun oracleOK "b" "p" (freshRuntime stDoneA)).2.execs.map
        (fun e => (e.agentName, e.callIndex, e.status)) =
      [("b", 1, ExecStatus.complete)] ∧
    ({ id := 1, runId := 1, agentName := "a", claudeSessionID := "s0"
       status := ExecStatus.complete, exitCode := some 0, startedAt := some 0
       completedAt := some 1, outputSignal := some [("status", SVal.s "DONE")]
       sequenceNum := 1, callIndex := 1, prompt := "p", pid := none } : Execution) ∉
      (invalidateExecutionsAfterIndex stDoneA 1 0).execs := by
  have h := C7_divergence_handling oracleOK "b" "p"
    { id := 1, runId := 1, agentName := "a", claudeSessionID := "s0"
      status := ExecStatus.complete, exitCode := some 0, startedAt := some 0
      completedAt := some 1, outputSignal := some [("status", SVal.s "DONE")]
      sequenceNum := 1, callIndex := 1, prompt := "p", pid := none }
    [("status", SVal.s "DONE")] (freshRuntime stDoneA)
  have h3 := h.2.2 (by decide) rfl rfl
  have h2 := h.2.1 1 0 stDoneA
    { id := 1, runId := 1, agentName := "a", claudeSessionID := "s0"
      status := ExecStatus.complete, exitCode := some 0, startedAt := some 0
      completedAt := some 1, outputSignal := some [("status", SVal.s "DONE")]
      sequenceNum := 1, callIndex := 1, prompt := "p", pid := none }
    (by decide) rfl (by decide)
  rw [h3]
  exact ⟨by decide, by decide, by decide, h2⟩

theorem getExecutionByCallIndex_eq_none (l : List Execution) (runId ci k : Nat)
    (hb : ∀ e ∈ l, e.runId = runId → e.callIndex ≤ k) (hk : k < ci) :
    getExecutionByCallIndex l runId ci = none := by
  unfold getExecutionByCallIndex
  rw [List.find?_eq_none]
  intro e he
  simp only [Bool.and_eq_true, beq_iff_eq, not_and]
  intro h1
  have := hb e he h1
  omega

theorem getExecutionByCallIndex_append (l1 l2 : List Execution) (runId ci : Nat)
    (h : getExecutionByCallIndex l1 runId ci = none) :
    getExecutionByCallIndex (l1 ++ l2) runId ci =
      getExecutionByCallIndex l2 runId ci := by
  unfold getExecutionByCallIndex at h ⊢
  rw [List.find?_append, h, Option.none_or]

theorem getExecutionByCallIndex_cons_self (e : Execution) (l : List Execution)
    (h1 : e.runId = runId) (h2 : e.callIndex = ci) :
    getExecutionByCallIndex (e :: l) runId ci = some e := by
  unfold getExecutionByCallIndex
  rw [List.find?_cons]
  simp [h1, h2]

/-- Replay: if every upcoming call index already has a complete record whose
agent name matches the script, `runScript` serves everything from the cache:
no invocation, no storage write, no clock tick — only the call index advances
and the cached signals are handed to the script. -/
theorem runScript_replay (oracle : Oracle) (calls : List (String × String))
    (sigs : Nat → Signal) :
    ∀ st : EngineState,
    (∀ i (hi : i < calls.length), ∃ e : Execution,
      getExecutionByCallIndex st.execs st.run.id (st.callIndex + 1 + i) = some e ∧
      e.status = ExecStatus.complete ∧
      e.agentName = (calls.get ⟨i, hi⟩).1 ∧
      e.outputSignal = some (sigs i)) →
    runScript oracle (callsToOps calls) st =
      (ScriptResult.finished,
       { st with
           callIndex := st.callIndex + calls.length
           returnedSignals := st.returnedSignals ++
             (List.range calls.length).map sigs }) := by
  induction calls generalizing sigs with
  | nil =>
      intro st _
      simp [callsToOps, runScript]
  | cons c rest ih =>
      intro st hrec
      obtain ⟨e, hfind, hcomp, hname, hsig⟩ := hrec 0 (by simp)
      simp only [List.get] at hname
      have hca : getExecutionByCallIndex st.execs st.run.id (st.callIndex + 1) =
          some e := by simpa using hfind
      simp only [callsToOps, List.map_cons, runScript]
      rw [luaRun_cached oracle c.1 c.2 st e (sigs 0) hca hcomp hname hsig]
      have ih2 := ih (fun i => sigs (i + 1))
        { st with
            callIndex := st.callIndex + 1
            returnedSignals := st.returnedSignals ++ [sigs 0] }
        (by
          intro i hi
          obtain ⟨e2, hfind2, h2, h3, h4⟩ := hrec (i + 1) (by simpa using hi)
          refine ⟨e2, ?_, h2, by simpa using h3, h4⟩
          have : st.callIndex + 1 + 1 + i = st.callIndex + 1 + (i + 1) := by omega
          simpa [this] using hfind2)
      rw [show (callsToOps rest) = rest.map (fun c => ScriptOp.runA c.1 c.2) from rfl] at ih2
      simp only [callsToOps]
      rw [ih2]
      have hlen : st.callIndex + 1 + rest.length = st.callIndex + (rest.length + 1) := by
        omega
      simp [hlen, List.range_succ_eq_map, List.map_map, Function.comp]

theorem freshInv_benignStep (sid : Nat → String) (cd : Nat → Int)
    (sg : Nat → Signal) (c : String × String) (st : EngineState)
    (h : FreshInv st) : FreshInv (benignStep sid cd sg c st) := by
  obtain ⟨h1, h2⟩ := h
  constructor
  · intro e he hrun
    simp only [benignStep, List.mem_append, List.mem_singleton] at he
    rcases he with he | he
    · have := h1 e he (by simpa [benignStep] using hrun)
      simp [benignStep]
      omega
    · simp [he, benignStep]
  · intro e he
    simp only [benignStep, List.mem_append, List.mem_singleton] at he
    rcases he with he | he
    · have := h2 e he
      simp [benignStep]
      omega
    · simp [he, benignStep]

/-- One fresh benign `run()` call evaluates to the closed form `benignStep`
(with the script-level signal append removed). -/
theorem luaRun_benign (oracle : Oracle) (sid : Nat → String) (cd : Nat → Int)
    (sg : Nat → Signal) (c : String × String) (st : EngineState)
    (hInv : FreshInv st)
    (ho : oracle st.invokeCount =
      AgentOutcome.ran (sid st.invokeCount) (cd st.invokeCount)
        (some (sg st.invokeCount)))
    (hnb : ¬ sigGet (sg st.invokeCount) "status" = some (SVal.s "NEEDS_HUMAN")) :
    luaRun oracle c.1 c.2 st =
      (LuaOutcome.value
        (sigSet (sg st.invokeCount) "_session_id" (SVal.s (sid st.invokeCount))),
       { benignStep sid cd sg c st with returnedSignals := st.returnedSignals }) := by
  have hfind : getExecutionByCallIndex st.execs st.run.id (st.callIndex + 1) = none :=
    getExecutionByCallIndex_eq_none _ _ _ st.callIndex hInv.1 (by omega)
  unfold luaRun runAgentFresh createExecution runAgent updateExecution
  simp only [hfind]
  simp only [ho]
  simp [fsAfterWrite, fsGet_fsSet_self, hnb, benignStep, List.map_append]
  apply map_eq_self_of_fix
  intro x hx
  have hxid : ¬ x.id = st.nextExecId := by
    have := hInv.2 x hx
    omega
  simp [Function.comp, hxid]

theorem runScript_benign_cons (oracle : Oracle) (sid : Nat → String)
    (cd : Nat → Int) (sg : Nat → Signal) (c : String × String)
    (ops : List ScriptOp) (st : EngineState)
    (hInv : FreshInv st)
    (ho : oracle st.invokeCount =
      AgentOutcome.ran (sid st.invokeCount) (cd st.invokeCount)
        (some (sg st.invokeCount)))
    (hnb : ¬ sigGet (sg st.invokeCount) "status" = some (SVal.s "NEEDS_HUMAN")) :
    runScript oracle (ScriptOp.runA c.1 c.2 :: ops) st =
      runScript oracle ops (benignStep sid cd sg c st) := by
  simp only [runScript]
  rw [luaRun_benign oracle sid cd sg c st hInv ho hnb]
  congr 1

/-- A whole first execution under a benign agent evaluates to `benignRun`. -/
theorem runScript_benign (oracle : Oracle) (sid : Nat → String)
    (cd : Nat → Int) (sg : Nat → Signal)
    (ho : ∀ n, oracle n = AgentOutcome.ran (sid n) (cd n) (some (sg n)))
    (hnb : ∀ n, ¬ sigGet (sg n) "status" = some (SVal.s "NEEDS_HUMAN")) :
    ∀ (calls : List (String × String)) (st : EngineState), FreshInv st →
    runScript oracle (callsToOps calls) st =
      (ScriptResult.finished, benignRun sid cd sg calls st) := by
  intro calls
  induction calls with
  | nil => intro st _; simp [callsToOps, runScript, benignRun]
  | cons c rest ih =>
      intro st hInv
      have hstep := runScript_benign_cons oracle sid cd sg c (callsToOps rest) st
        hInv (ho st.invokeCount) (hnb st.invokeCount)
      simp only [callsToOps, List.map_cons] at hstep ⊢
      rw [hstep]
      have := ih (benignStep sid cd sg c st) (freshInv_benignStep sid cd sg c st hInv)
      simp only [callsToOps] at this
      rw [this]
      simp [benignRun]

theorem benignRun_cons (sid : Nat → String) (cd : Nat → Int) (sg : Nat → Signal)
    (c : String × String) (rest : List (String × String)) (st : EngineState) :
    benignRun sid cd sg (c :: rest) st =
      benignRun sid cd sg rest (benignStep sid cd sg c st) := by
  simp [benignRun]

theorem benignRun_execs_prefix (sid : Nat → String) (cd : Nat → Int)
    (sg : Nat → Signal) (calls : List (String × String)) :
    ∀ st : EngineState, ∃ L, (benignRun sid cd sg calls st).execs = st.execs ++ L := by
  induction calls with
  | nil => intro st; exact ⟨[], by simp [benignRun]⟩
  | cons c rest ih =>
      intro st
      obtain ⟨L, hL⟩ := ih (benignStep sid cd sg c st)
      refine ⟨{ id := st.nextExecId, runId := st.run.id, agentName := c.1
                claudeSessionID := sid st.invokeCount
                status := ExecStatus.complete
                exitCode := some (cd st.invokeCount)
                startedAt := some st.clock, completedAt := some (st.clock + 1)
                outputSignal := some (sg st.invokeCount)
                sequenceNum := (executionsForRun st.execs st.run.id).length + 1
                callIndex := st.callIndex + 1, prompt := c.2, pid := none } :: L, ?_⟩
      rw [benignRun_cons, hL]
      simp [benignStep]

theorem benignRun_proj (sid : Nat → String) (cd : Nat → Int) (sg : Nat → Signal)
    (calls : List (String × String)) :
    ∀ st : EngineState,
    (benignRun sid cd sg calls st).run.id = st.run.id ∧
    (benignRun sid cd sg calls st).isStuck = st.isStuck ∧
    (benignRun sid cd sg calls st).waitingHuman = st.waitingHuman ∧
    (benignRun sid cd sg calls st).callIndex = st.callIndex + calls.length ∧
    (benignRun sid cd sg calls st).invokeCount = st.invokeCount + calls.length := by
  induction calls with
  | nil => intro st; simp [benignRun]
  | cons c rest ih =>
      intro st
      rw [benignRun_cons]
      obtain ⟨q1, q2, q3, q4, q5⟩ := ih (benignStep sid cd sg c st)
      refine ⟨?_, ?_, ?_, ?_, ?_⟩
      · rw [q1]; rfl
      · rw [q2]; rfl
      · rw [q3]; rfl
      · rw [q4]
        show st.callIndex + 1 + rest.length = st.callIndex + (rest.length + 1)
        omega
      · rw [q5]
        show st.invokeCount + 1 + rest.length = st.invokeCount + (rest.length + 1)
        omega

theorem benignRun_returned (sid : Nat → String) (cd : Nat → Int)
    (sg : Nat → Signal) (calls : List (String × String)) :
    ∀ st : EngineState,
    (benignRun sid cd sg calls st).returnedSignals =
      st.returnedSignals ++ (List.range calls.length).map
        (fun i => sigSet (sg (st.invokeCount + i)) "_session_id"
          (SVal.s (sid (st.invokeCount + i)))) := by
  induction calls with
  | nil => intro st; simp [benignRun]
  | cons c rest ih =>
      intro st
      rw [benignRun_cons, ih]
      simp [benignStep, List.range_succ_eq_map, List.map_map, Function.comp,
            List.append_assoc,
            show ∀ i, st.invokeCount + 1 + i = st.invokeCount + (i + 1) from
              fun i => by omega]

theorem benignRun_invocations (sid : Nat → String) (cd : Nat → Int)
    (sg : Nat → Signal) (calls : List (String × String)) :
    ∀ st : EngineState,
    (benignRun sid cd sg calls st).invocations =
      st.invocations ++ invsOf calls st.callIndex := by
  induction calls with
  | nil => intro st; simp [benignRun, invsOf]
  | cons c rest ih =>
      intro st
      rw [benignRun_cons, ih]
      simp [benignStep, invsOf, List.append_assoc]

theorem benignRun_find (sid : Nat → String) (cd : Nat → Int) (sg : Nat → Signal)
    (calls : List (String × String)) :
    ∀ st : EngineState, FreshInv st → ∀ i (hi : i < calls.length),
    ∃ e : Execution,
      getExecutionByCallIndex (benignRun sid cd sg calls st).execs st.run.id
        (st.callIndex + 1 + i) = some e ∧
      e.status = ExecStatus.complete ∧
      e.agentName = (calls.get ⟨i, hi⟩).1 ∧
      e.outputSignal = some (sg (st.invokeCount + i)) := by
  induction calls with
  | nil => intro st _ i hi; exact absurd hi (by simp)
  | cons c rest ih =>
      intro st hInv i hi
      rw [benignRun_cons]
      obtain ⟨L, hL⟩ := benignRun_execs_prefix sid cd sg rest (benignStep sid cd sg c st)
      cases i with
      | zero =>
          refine ⟨{ id := st.nextExecId, runId := st.run.id, agentName := c.1
                    claudeSessionID := sid st.invokeCount
                    status := ExecStatus.complete
                    exitCode := some (cd st.invokeCount)
                    startedAt := some st.clock
                    completedAt := some (st.clock + 1)
                    outputSignal := some (sg st.invokeCount)
                    sequenceNum := (executionsForRun st.execs st.run.id).length + 1
                    callIndex := st.callIndex + 1, prompt := c.2, pid := none },
                  ?_, rfl, rfl, rfl⟩
          rw [hL]
          have hstep : (benignStep sid cd sg c st).execs =
              st.execs ++ [{ id := st.nextExecId, runId := st.run.id
                             agentName := c.1
                             claudeSessionID := sid st.invokeCount
                             status := ExecStatus.complete
                             exitCode := some (cd st.invokeCount)
                             startedAt := some st.clock
                             completedAt := some (st.clock + 1)
                             outputSignal := some (sg st.invokeCount)
                             sequenceNum :=
                               (executionsForRun st.execs st.run.id).length + 1
                             callIndex := st.callIndex + 1, prompt := c.2
                             pid := none }] := by
            simp [benignStep]
          rw [hstep, List.append_assoc,
              getExecutionByCallIndex_append _ _ _ _
                (getExecutionByCallIndex_eq_none _ _ _ st.callIndex hInv.1 (by omega)),
              List.cons_append]
          exact getExecutionByCallIndex_cons_self _ _ rfl (by simp)
      | succ j =>
          have hj : j < rest.length := by simpa using hi
          obtain ⟨e, hfind, h2, h3, h4⟩ := ih (benignStep sid cd sg c st)
            (freshInv_benignStep sid cd sg c st hInv) j hj
          refine ⟨e, ?_, h2, by simpa using h3, ?_⟩
          · have harith : (benignStep sid cd sg c st).callIndex + 1 + j =
                st.callIndex + 1 + (j + 1) := by
              show st.callIndex + 1 + 1 + j = st.callIndex + 1 + (j + 1)
              omega
            have hid : (benignStep sid cd sg c st).run.id = st.run.id := rfl
            rw [← harith, ← hid]
            exact hfind
          · have harith2 : (benignStep sid cd sg c st).invokeCount + j =
                st.invokeCount + (j + 1) := by
              show st.invokeCount + 1 + j = st.invokeCount + (j + 1)
              omega
            rw [← harith2]
            exact h4

/-- **C8** — counterexample.  Resuming the completed one-call Run replays the
cached call (no new Execution records) and ends complete again, but the
modelled resume (spec §6: reset status, clear completion timestamp, re-run
Execute) refreshes the completion timestamp, so the Run row is *not*
unchanged. -/
theorem C8_counterexample :
    stDoneA.run.status = RunStatus.complete ∧
    stDoneA.run.completedAt = some 2 ∧
    (resumeRun oracleDone [ScriptOp.runA "a" "p"] stDoneA).2.execs =
      stDoneA.execs ∧
    (resumeRun oracleDone [ScriptOp.runA "a" "p"] stDoneA).2.run.status =
      RunStatus.complete ∧
    (resumeRun oracleDone [ScriptOp.runA "a" "p"] stDoneA).2.run.completedAt =
      some 3 ∧
    (resumeRun oracleDone [ScriptOp.runA "a" "p"] stDoneA).2.run ≠
      stDoneA.run := by
  refine ⟨rfl, rfl, by decide, by decide, by decide, by decide⟩

/-- **C8** (amended): resuming a Run whose records for the script's calls are
all complete and matching creates no new Execution records and leaves
storage, workspace and ghost history untouched; the Run ends in status
complete with every field unchanged except the completion timestamp, which is
refreshed to the resume time (and the runtime-local fields are rebuilt). -/
theorem C8_resume_completed_noop (oracle : Oracle)
    (calls : List (String × String)) (sigs : Nat → Signal) (st : EngineState)
    (hcomp : st.run.status = RunStatus.complete)
    (hrec : ∀ i (hi : i < calls.length), ∃ e : Execution,
      getExecutionByCallIndex st.execs st.run.id (1 + i) = some e ∧
      e.status = ExecStatus.complete ∧
      e.agentName = (calls.get ⟨i, hi⟩).1 ∧
      e.outputSignal = some (sigs i)) :
    resumeRun oracle (callsToOps calls) st =
      (ExecResult.ok,
       { st with
           run := { st.run with
               status := RunStatus.complete
               completedAt := some st.clock }
           callIndex := calls.length
           logs := []
           isStuck := false
           stuckReason := ""
           waitingHuman := false
           waitingReason := ""
           waitingSessionID := ""
           waitingAgent := ""
           waitingExecID := 0
           returnedSignals := (List.range calls.length).map sigs
           clock := st.clock + 1 }) ∧
    (resumeRun oracle (callsToOps calls) st).2.run =
      { st.run with completedAt := some st.clock } := by
  have hrep := runScript_replay oracle calls sigs (withRunning (resumeState st))
    (by
      intro i hi
      obtain ⟨e, hfind, h2, h3, h4⟩ := hrec i hi
      refine ⟨e, ?_, h2, h3, h4⟩
      show getExecutionByCallIndex st.execs st.run.id (0 + 1 + i) = some e
      simpa using hfind)
  have hmain : resumeRun oracle (callsToOps calls) st =
      (ExecResult.ok,
       { st with
           run := { st.run with
               status := RunStatus.complete
               completedAt := some st.clock }
           callIndex := calls.length
           logs := []
           isStuck := false
           stuckReason := ""
           waitingHuman := false
           waitingReason := ""
           waitingSessionID := ""
           waitingAgent := ""
           waitingExecID := 0
           returnedSignals := (List.range calls.length).map sigs
           clock := st.clock + 1 }) := by
    unfold resumeRun executeLua ExecuteScript
    rw [hrep]
    simp [withRunning, resumeState, freshRuntime, markComplete]
  refine ⟨hmain, ?_⟩
  rw [hmain]
  simp [hcomp.symm]

/-- Shared helper: a resume over fully-cached calls replays everything and
re-marks the Run complete, touching nothing persistent but the completion
timestamp. -/
theorem resumeRun_replay (oracle : Oracle) (calls : List (String × String))
    (sigs : Nat → Signal) (st : EngineState)
    (hrec : ∀ i (hi : i < calls.length), ∃ e : Execution,
      getExecutionByCallIndex st.execs st.run.id (1 + i) = some e ∧
      e.status = ExecStatus.complete ∧
      e.agentName = (calls.get ⟨i, hi⟩).1 ∧
      e.outputSignal = some (sigs i)) :
    resumeRun oracle (callsToOps calls) st =
      (ExecResult.ok,
       { st with
           run := { st.run with
               status := RunStatus.complete
               completedAt := some st.clock }
           callIndex := calls.length
           logs := []
           isStuck := false
           stuckReason := ""
           waitingHuman := false
           waitingReason := ""
           waitingSessionID := ""
           waitingAgent := ""
           waitingExecID := 0
           returnedSignals := (List.range calls.length).map sigs
           clock := st.clock + 1 }) := by
  have hrep := runScript_replay oracle calls sigs (withRunning (resumeState st))
    (by
      intro i hi
      obtain ⟨e, hfind, h2, h3, h4⟩ := hrec i hi
      refine ⟨e, ?_, h2, h3, h4⟩
      show getExecutionByCallIndex st.execs st.run.id (0 + 1 + i) = some e
      simpa using hfind)
  unfold resumeRun executeLua ExecuteScript
  rw [hrep]
  simp [withRunning, resumeState, freshRuntime, markComplete]

/-- **C8** — witness: the amended theorem applied to the completed one-call
Run `stDoneA`. -/
theorem C8_resume_completed_noop_witness :
    (resumeRun oracleDone (callsToOps [("a", "p")]) stDoneA).1 = ExecResult.ok ∧
    (resumeRun oracleDone (callsToOps [("a", "p")]) stDoneA).2.execs =
      stDoneA.execs ∧
    (resumeRun oracleDone (callsToOps [("a", "p")]) stDoneA).2.run =
      { stDoneA.run with completedAt := some 3 } := by
  have h := C8_resume_completed_noop oracleDone [("a", "p")]
    (fun _ => [("status", SVal.s "DONE")]) stDoneA rfl
    (by
      intro i hi
      have hl : i < 1 := by simpa using hi
      have hi0 : i = 0 := by omega
      subst hi0
      exact ⟨{ id := 1, runId := 1, agentName := "a", claudeSessionID := "s0"
               status := ExecStatus.complete, exitCode := some 0
               startedAt := some 0, completedAt := some 1
               outputSignal := some [("status", SVal.s "DONE")]
               sequenceNum := 1, callIndex := 1, prompt := "p", pid := none },
             by decide, rfl, rfl, rfl⟩)
  refine ⟨?_, ?_, ?_⟩
  · rw [h.1]
  · rw [h.1]
  · rw [h.2]
    decide

theorem invsOf_lt (calls : List (String × String)) :
    ∀ ci, ∀ p ∈ invsOf calls ci, ci < p.1 := by
  induction calls with
  | nil => intro ci p hp; simp [invsOf] at hp
  | cons c rest ih =>
      intro ci p hp
      simp only [invsOf, List.mem_cons] at hp
      rcases hp with hp | hp
      · simp [hp]
      · have := ih (ci + 1) p hp
        omega

theorem invsOf_countP_le_one (calls : List (String × String)) :
    ∀ ci k, (invsOf calls ci).countP (fun p => p.1 == k) ≤ 1 := by
  induction calls with
  | nil => intro ci k; simp [invsOf]
  | cons c rest ih =>
      intro ci k
      simp only [invsOf, List.countP_cons]
      by_cases hk : ci + 1 = k
      · have h0 : (invsOf rest (ci + 1)).countP (fun p => p.1 == k) = 0 := by
          rw [List.countP_eq_zero]
          intro p hp
          have := invsOf_lt rest (ci + 1) p hp
          simp
          omega
        rw [h0]
        simp [hk]
      · have := ih (ci + 1) k
        simp only [beq_iff_eq, hk]
        simp
        omega

/-- **C2** — counterexample.  The first execution hands the script the signal
with `_session_id` injected (runtime.go:354, after the record was persisted at
line 321); the resumed execution serves the *stored* signal (runtime.go:172),
which lacks the injected key — so the two executions do not produce identical
signals for the completed call. -/
theorem C2_counterexample :
    stDoneA.returnedSignals =
      [[("status", SVal.s "DONE"), ("_session_id", SVal.s "s0")]] ∧
    (resumeRun oracleDone [ScriptOp.runA "a" "p"] stDoneA).2.returnedSignals =
      [[("status", SVal.s "DONE")]] ∧
    ([[("status", SVal.s "DONE"), ("_session_id", SVal.s "s0")]] :
        List Signal) ≠ [[("status", SVal.s "DONE")]] := by
  refine ⟨by decide, by decide, by decide⟩

/-- **C2** (amended): first execution then crash-then-resume replay.  The
agent is invoked exactly once per call index in the first execution and not at
all in the replay (at most once per completed `(run_id, call_index)` pair);
the replay creates no records; every replayed call returns the *stored*
signal, which agrees with the first execution's signal on every key except
the injected `_session_id`. -/
theorem C2_memoization_idempotence (oracle : Oracle)
    (calls : List (String × String)) (sid : Nat → String) (cd : Nat → Int)
    (sg : Nat → Signal) (run : Run)
    (ho : ∀ n, oracle n = AgentOutcome.ran (sid n) (cd n) (some (sg n)))
    (hnb : ∀ n, ¬ sigGet (sg n) "status" = some (SVal.s "NEEDS_HUMAN")) :
    (executeLua oracle (callsToOps calls) (initEngineState run)).1 =
      ExecResult.ok ∧
    (executeLua oracle (callsToOps calls) (initEngineState run)).2.returnedSignals =
      (List.range calls.length).map
        (fun i => sigSet (sg i) "_session_id" (SVal.s (sid i))) ∧
    (resumeRun oracle (callsToOps calls)
        (executeLua oracle (callsToOps calls) (initEngineState run)).2).1 =
      ExecResult.ok ∧
    (resumeRun oracle (callsToOps calls)
        (executeLua oracle (callsToOps calls) (initEngineState run)).2).2.returnedSignals =
      (List.range calls.length).map sg ∧
    (∀ i k, ¬ k = "_session_id" →
      sigGet (sigSet (sg i) "_session_id" (SVal.s (sid i))) k = sigGet (sg i) k) ∧
    (resumeRun oracle (callsToOps calls)
        (executeLua oracle (callsToOps calls) (initEngineState run)).2).2.execs =
      (executeLua oracle (callsToOps calls) (initEngineState run)).2.execs ∧
    (resumeRun oracle (callsToOps calls)
        (executeLua oracle (callsToOps calls) (initEngineState run)).2).2.invocations =
      (executeLua oracle (callsToOps calls) (initEngineState run)).2.invocations ∧
    (executeLua oracle (callsToOps calls) (initEngineState run)).2.invocations =
      invsOf calls 0 ∧
    (∀ ci, ((resumeRun oracle (callsToOps calls)
        (executeLua oracle (callsToOps calls) (initEngineState run)).2).2.invocations.countP
          (fun p => p.1 == ci)) ≤ 1) := by
  have hInv0 : FreshInv (withRunning (initEngineState run)) := by
    constructor
    · intro e he
      simp [withRunning, initEngineState] at he
    · intro e he
      simp [withRunning, initEngineState] at he
  have hrs := runScript_benign oracle sid cd sg ho hnb calls
    (withRunning (initEngineState run)) hInv0
  obtain ⟨p1, p2, p3, p4, p5⟩ :=
    benignRun_proj sid cd sg calls (withRunning (initEngineState run))
  have hexec : executeLua oracle (callsToOps calls) (initEngineState run) =
      (ExecResult.ok,
       markComplete (benignRun sid cd sg calls (withRunning (initEngineState run)))) := by
    unfold executeLua ExecuteScript
    rw [hrs]
    have hbs : (benignRun sid cd sg calls (withRunning (initEngineState run))).isStuck =
        false := p2.trans rfl
    have hbw : (benignRun sid cd sg calls
        (withRunning (initEngineState run))).waitingHuman = false := p3.trans rfl
    simp [hbs, hbw]
  have hrecB : ∀ i (hi : i < calls.length), ∃ e : Execution,
      getExecutionByCallIndex
        (markComplete (benignRun sid cd sg calls (withRunning (initEngineState run)))).execs
        (markComplete (benignRun sid cd sg calls (withRunning (initEngineState run)))).run.id
        (1 + i) = some e ∧
      e.status = ExecStatus.complete ∧
      e.agentName = (calls.get ⟨i, hi⟩).1 ∧
      e.outputSignal = some (sg i) := by
    intro i hi
    obtain ⟨e, hfind, h2, h3, h4⟩ := benignRun_find sid cd sg calls
      (withRunning (initEngineState run)) hInv0 i hi
    refine ⟨e, ?_, h2, h3, by simpa [withRunning, initEngineState] using h4⟩
    show getExecutionByCallIndex
      (benignRun sid cd sg calls (withRunning (initEngineState run))).execs
      (benignRun sid cd sg calls (withRunning (initEngineState run))).run.id
      (1 + i) = some e
    rw [p1]
    simpa using hfind
  have hres := resumeRun_replay oracle calls sg
    (markComplete (benignRun sid cd sg calls (withRunning (initEngineState run)))) hrecB
  have hinvs : (executeLua oracle (callsToOps calls) (initEngineState run)).2.invocations =
      invsOf calls 0 := by
    rw [hexec]
    show (benignRun sid cd sg calls (withRunning (initEngineState run))).invocations =
      invsOf calls 0
    rw [benignRun_invocations]
    simp [withRunning, initEngineState]
  refine ⟨by rw [hexec], ?_, ?_, ?_, ?_, ?_, ?_, hinvs, ?_⟩
  · rw [hexec]
    show (benignRun sid cd sg calls (withRunning (initEngineState run))).returnedSignals =
      (List.range calls.length).map
        (fun i => sigSet (sg i) "_session_id" (SVal.s (sid i)))
    rw [benignRun_returned]
    simp [withRunning, initEngineState]
  · rw [hexec, hres]
  · rw [hexec, hres]
  · intro i k hk
    exact sigGet_sigSet_ne (sg i) "_session_id" k (SVal.s (sid i)) hk
  · rw [hexec, hres]
  · rw [hexec, hres]
  · intro ci
    rw [hexec, hres]
    have hBinv : (benignRun sid cd sg calls
        (withRunning (initEngineState run))).invocations = invsOf calls 0 := by
      rw [benignRun_invocations]
      simp [withRunning, initEngineState]
    show ((benignRun sid cd sg calls
      (withRunning (initEngineState run))).invocations.countP
        (fun p => p.1 == ci)) ≤ 1
    rw [hBinv]
    exact invsOf_countP_le_one calls 0 ci

/-- **C2** — witness: the amended theorem applied to the one-call script under
the always-DONE agent. -/
theorem C2_memoization_idempotence_witness :
    (executeLua oracleDone (callsToOps [("a", "p")])
        (initEngineState runW)).2.returnedSignals =
      [[("status", SVal.s "DONE"), ("_session_id", SVal.s "s0")]] ∧
    (resumeRun oracleDone (callsToOps [("a", "p")])
        (executeLua oracleDone (callsToOps [("a", "p")])
          (initEngineState runW)).2).2.returnedSignals =
      [[("status", SVal.s "DONE")]] ∧
    (resumeRun oracleDone (callsToOps [("a", "p")])
        (executeLua oracleDone (callsToOps [("a", "p")])
          (initEngineState runW)).2).2.invocations = [(1, "a")] := by
  obtain ⟨c1, c2, c3, c4, c5, c6, c7, c8, c9⟩ :=
    C2_memoization_idempotence oracleDone [("a", "p")]
      (fun n => "s" ++ toString n) (fun _ => 0)
      (fun _ => [("status", SVal.s "DONE")]) runW
      (fun n => rfl)
      (by
        intro n
        show ¬ sigGet [("status", SVal.s "DONE")] "status" =
          some (SVal.s "NEEDS_HUMAN")
        decide)
  refine ⟨?_, ?_, ?_⟩
  · rw [c2]
    decide
  · rw [c4]
    decide
  · rw [c7, c8]
    decide

theorem entriesFor_append (tr seg : List TraceEntry) (i : Nat) :
    entriesFor (tr ++ seg) i = entriesFor tr i ++ entriesFor seg i := by
  simp [entriesFor, List.filterMap_append]

theorem entriesFor_map_self (seg : List (ExecStatus × Option Signal)) (i : Nat) :
    entriesFor (seg.map (fun p => (i, p))) i = seg := by
  induction seg with
  | nil => rfl
  | cons x l ih => simp [entriesFor] at ih ⊢; exact ih

theorem entriesFor_map_ne (seg : List (ExecStatus × Option Signal)) (i j : Nat)
    (h : ¬ j = i) :
    entriesFor (seg.map (fun p => (i, p))) j = [] := by
  induction seg with
  | nil => rfl
  | cons x l ih =>
      simp only [List.map_cons, entriesFor, List.filterMap_cons] at ih ⊢
      rw [if_neg (fun hh => h hh.symm)]
      exact ih

theorem entriesFor_eq_nil_of_bound (tr : List TraceEntry) (n i : Nat)
    (hb : ∀ t ∈ tr, t.1 < n) (hn : n ≤ i) :
    entriesFor tr i = [] := by
  unfold entriesFor
  rw [List.filterMap_eq_nil_iff]
  intro t ht
  have := hb t ht
  rw [if_neg]
  omega

theorem lockedAll_append (l m : List (ExecStatus × Option Signal)) :
    lockedAll (l ++ m) = (lockedAll l && lockedAll m) := by
  simp [lockedAll]

theorem lockedAll_last (l : List (ExecStatus × Option Signal))
    (h : lockedAll l = true) (y : ExecStatus × Option Signal)
    (hy : l.getLast? = some y) : y.1 = ExecStatus.complete := by
  have hmem := List.mem_of_mem_getLast? hy
  have := List.all_eq_true.mp h y hmem
  simpa using this

theorem okChain_append (l m : List (ExecStatus × Option Signal))
    (hl : okChain l = true) (hm : okChain m = true)
    (hc : noLock l = true ∨ lockedAll m = true) :
    okChain (l ++ m) = true := by
  induction l with
  | nil => simpa using hm
  | cons x l2 ih =>
      simp only [okChain, Bool.and_eq_true] at hl
      obtain ⟨hx, hl2⟩ := hl
      have hc2 : noLock l2 = true ∨ lockedAll m = true := by
        rcases hc with hc | hc
        · left
          simp only [noLock, List.all_cons, Bool.and_eq_true] at hc
          exact hc.2
        · right; exact hc
      simp only [List.cons_append, okChain, Bool.and_eq_true]
      refine ⟨?_, ih hl2 hc2⟩
      by_cases hlock : (x.1 == ExecStatus.complete && !isNeedsHuman x.2) = true
      · have hall2 : lockedAll l2 = true := by
          rcases Bool.or_eq_true_iff.mp hx with h | h
          · rw [hlock] at h; simp at h
          · exact h
        have hallm : lockedAll m = true := by
          rcases hc with hc | hc
          · simp only [noLock, List.all_cons, Bool.and_eq_true] at hc
            rw [hlock] at hc
            simp at hc
          · exact hc
        rw [List.append_eq, lockedAll_append, hall2, hallm]
        simp
      · rw [Bool.or_eq_true_iff]
        left
        simp only [Bool.not_eq_true] at hlock
        simp [hlock]

theorem noLock_of_okChain_last (l : List (ExecStatus × Option Signal))
    (h1 : okChain l = true) (y : ExecStatus × Option Signal)
    (h2 : l.getLast? = some y) (h3 : ¬ y.1 = ExecStatus.complete) :
    noLock l = true := by
  induction l with
  | nil => rfl
  | cons x l2 ih =>
      simp only [okChain, Bool.and_eq_true] at h1
      obtain ⟨hx, hl2⟩ := h1
      cases l2 with
      | nil =>
          simp only [List.getLast?_singleton, Option.some_inj] at h2
          subst h2
          simp only [noLock, List.all_cons, List.all_nil, Bool.and_true]
          simp [h3]
      | cons z l3 =>
          rw [List.getLast?_cons_cons] at h2
          have hnl2 := ih hl2 h2
          simp only [noLock, List.all_cons, Bool.and_eq_true] at hnl2 ⊢
          refine ⟨?_, hnl2⟩
          by_cases hlock : (x.1 == ExecStatus.complete && !isNeedsHuman x.2) = true
          · exfalso
            have hall2 : lockedAll (z :: l3) = true := by
              rcases Bool.or_eq_true_iff.mp hx with h | h
              · rw [hlock] at h; simp at h
              · exact h
            exact h3 (lockedAll_last (z :: l3) hall2 y h2)
          · simp only [Bool.not_eq_true] at hlock
            simp [hlock]

theorem okChain_singleton (x : ExecStatus × Option Signal) :
    okChain [x] = true := by
  simp [okChain, lockedAll]

theorem noLock_append (l m : List (ExecStatus × Option Signal)) :
    noLock (l ++ m) = (noLock l && noLock m) := by
  simp [noLock]

theorem entriesFor_single_self (i : Nat) (p : ExecStatus × Option Signal) :
    entriesFor [(i, p)] i = [p] := by
  simp [entriesFor]

theorem entriesFor_single_ne (i j : Nat) (p : ExecStatus × Option Signal)
    (h : ¬ i = j) : entriesFor [(i, p)] j = [] := by
  simp [entriesFor, h]

theorem traceInv_replace_append (st st2 : EngineState) (e : Execution)
    (seg : List (ExecStatus × Option Signal))
    (hex : st2.execs = st.execs.map (fun x => if x.id = e.id then e else x))
    (htr : st2.updateTrace = st.updateTrace ++ seg.map (fun p => (e.id, p)))
    (hn : st2.nextExecId = st.nextExecId)
    (hid : e.id < st.nextExecId)
    (hok : okChain seg = true)
    (hcond : noLock (entriesFor st.updateTrace e.id) = true ∨ lockedAll seg = true)
    (hlastseg : seg.getLast? = some (e.status, e.outputSignal))
    (hInv : TraceInv st) :
    TraceInv st2 := by
  obtain ⟨h1, h2, h3, h4, h5⟩ := hInv
  refine ⟨?_, ?_, ?_, ?_, ?_⟩
  · intro i
    rw [htr, entriesFor_append]
    by_cases hi : i = e.id
    · subst hi
      rw [entriesFor_map_self]
      exact okChain_append _ _ (h1 e.id) hok hcond
    · rw [entriesFor_map_ne seg e.id i hi, List.append_nil]
      exact h1 i
  · intro x hx
    rw [hex] at hx
    obtain ⟨a, ha, rfl⟩ := List.mem_map.mp hx
    by_cases hax : a.id = e.id
    · rw [if_pos hax, htr, entriesFor_append, entriesFor_map_self,
          List.getLast?_append, hlastseg]
      rfl
    · rw [if_neg hax, htr, entriesFor_append,
          entriesFor_map_ne seg e.id a.id hax, List.append_nil]
      exact h2 a ha
  · intro t ht
    rw [htr] at ht
    rw [hn]
    rcases List.mem_append.mp ht with h | h
    · exact h3 t h
    · obtain ⟨p, hp, rfl⟩ := List.mem_map.mp h
      exact hid
  · intro x hx
    rw [hex] at hx
    rw [hn]
    obtain ⟨a, ha, rfl⟩ := List.mem_map.mp hx
    by_cases hax : a.id = e.id
    · rw [if_pos hax]; exact hid
    · rw [if_neg hax]; exact h4 a ha
  · rw [hex]
    have heq : (st.execs.map (fun x => if x.id = e.id then e else x)).map
        (fun x => x.id) = st.execs.map (fun x => x.id) := by
      rw [List.map_map]
      apply List.map_congr_left
      intro a ha
      by_cases hax : a.id = e.id
      · simp [Function.comp, hax]
      · simp [Function.comp, hax]
    rw [heq]
    exact h5

theorem traceInv_append_new (st st2 : EngineState) (e : Execution)
    (hex : st2.execs = st.execs ++ [e])
    (htr : st2.updateTrace = st.updateTrace ++ [(e.id, e.status, e.outputSignal)])
    (hn : st2.nextExecId = st.nextExecId + 1)
    (hid : e.id = st.nextExecId)
    (hInv : TraceInv st) :
    TraceInv st2 := by
  obtain ⟨h1, h2, h3, h4, h5⟩ := hInv
  have hnil : entriesFor st.updateTrace e.id = [] :=
    entriesFor_eq_nil_of_bound st.updateTrace st.nextExecId e.id h3
      (le_of_eq hid.symm)
  refine ⟨?_, ?_, ?_, ?_, ?_⟩
  · intro i
    rw [htr, entriesFor_append]
    by_cases hi : i = e.id
    · subst hi
      rw [hnil, entriesFor_single_self, List.nil_append]
      exact okChain_singleton _
    · rw [entriesFor_single_ne e.id i _ (fun hh => hi hh.symm), List.append_nil]
      exact h1 i
  · intro x hx
    rw [hex] at hx
    rcases List.mem_append.mp hx with hxo | hxe
    · have hxid : ¬ e.id = x.id := by
        have := h4 x hxo
        omega
      rw [htr, entriesFor_append, entriesFor_single_ne e.id x.id _ hxid,
          List.append_nil]
      exact h2 x hxo
    · have hxx : x = e := by simpa using hxe
      subst hxx
      rw [htr, entriesFor_append, hnil, entriesFor_single_self, List.nil_append]
      rfl
  · intro t ht
    rw [htr] at ht
    rw [hn]
    rcases List.mem_append.mp ht with h | h
    · have := h3 t h; omega
    · have ht2 : t = (e.id, e.status, e.outputSignal) := by simpa using h
      subst ht2
      show e.id < st.nextExecId + 1
      omega
  · intro x hx
    rw [hex] at hx
    rw [hn]
    rcases List.mem_append.mp hx with h | h
    · have := h4 x h; omega
    · have hxx : x = e := by simpa using h
      subst hxx
      omega
  · rw [hex, List.map_append]
    rw [List.nodup_append]
    refine ⟨h5, by simp, ?_⟩
    intro a ha hb
    have hb2 : a = e.id := by simpa using hb
    obtain ⟨y, hy, hya⟩ := List.mem_map.mp ha
    have := h4 y hy
    omega

theorem traceInv_invalidate (st : EngineState) (runId ci : Nat)
    (hInv : TraceInv st) :
    TraceInv (invalidateExecutionsAfterIndex st runId ci) := by
  obtain ⟨h1, h2, h3, h4, h5⟩ := hInv
  refine ⟨h1, ?_, h3, ?_, ?_⟩
  · intro x hx
    exact h2 x (List.mem_of_mem_filter hx)
  · intro x hx
    exact h4 x (List.mem_of_mem_filter hx)
  · exact List.Sublist.nodup (List.Sublist.map _ (List.filter_sublist _)) h5

theorem traceInv_runAgent (oracle : Oracle) (agent prompt : String)
    (exec0 : Execution) (st : EngineState)
    (hlast : (entriesFor st.updateTrace exec0.id).getLast? =
      some (exec0.status, exec0.outputSignal))
    (hnc : ¬ exec0.status = ExecStatus.complete)
    (hid : exec0.id < st.nextExecId)
    (hInv : TraceInv st) :
    TraceInv (runAgent oracle agent prompt exec0 st).2 := by
  have hnl : noLock (entriesFor st.updateTrace exec0.id) = true :=
    noLock_of_okChain_last _ (hInv.1 exec0.id) _ hlast hnc
  cases ho : oracle st.invokeCount with
  | launchFail msg =>
    rw [runAgent_launchFail oracle agent prompt exec0 st msg ho]
    exact traceInv_replace_append st _
      { exec0 with startedAt := some st.clock, status := ExecStatus.failed }
      [(ExecStatus.running, exec0.outputSignal),
       (ExecStatus.failed, exec0.outputSignal)]
      rfl rfl rfl hid (by simp [okChain, lockedAll]) (Or.inl hnl) rfl hInv
  | ran sid code writes =>
    rcases hg : fsGet (fsAfterWrite st.fsSignals agent writes) agent with _ | s
    · rw [runAgent_noSignal oracle agent prompt exec0 st sid code writes ho hg]
      exact traceInv_replace_append st _
        { exec0 with startedAt := some st.clock, status := ExecStatus.failed }
        [(ExecStatus.running, exec0.outputSignal),
         (ExecStatus.failed, exec0.outputSignal)]
        rfl rfl rfl hid (by simp [okChain, lockedAll]) (Or.inl hnl) rfl hInv
    · by_cases hs : sigGet s "status" = some (SVal.s "NEEDS_HUMAN")
      · rw [runAgent_needsHuman oracle agent prompt exec0 st sid code writes s ho hg hs]
        exact traceInv_replace_append st _
          { exec0 with
              startedAt := some st.clock
              claudeSessionID := sid
              exitCode := some code
              completedAt := some (st.clock + 1)
              outputSignal := some s
              status := ExecStatus.waitingHuman }
          [(ExecStatus.running, exec0.outputSignal),
           (ExecStatus.complete, some s),
           (ExecStatus.waitingHuman, some s)]
          rfl rfl rfl hid (by simp [okChain, lockedAll, isNeedsHuman, hs])
          (Or.inl hnl) rfl hInv
      · rw [runAgent_ok oracle agent prompt exec0 st sid code writes s ho hg hs]
        exact traceInv_replace_append st _
          { exec0 with
              startedAt := some st.clock
              claudeSessionID := sid
              exitCode := some code
              completedAt := some (st.clock + 1)
              outputSignal := some s
              status := ExecStatus.complete }
          [(ExecStatus.running, exec0.outputSignal),
           (ExecStatus.complete, some s)]
          rfl rfl rfl hid (by simp [okChain, lockedAll]) (Or.inl hnl) rfl hInv

theorem traceInv_runAgentFresh (oracle : Oracle) (agent prompt : String)
    (st : EngineState) (hInv : TraceInv st) :
    TraceInv (runAgentFresh oracle agent prompt st).2 := by
  rw [runAgentFresh_eq]
  have hInv2 : TraceInv { st with
      execs := st.execs ++ [freshExecRecord st agent prompt]
      nextExecId := st.nextExecId + 1
      updateTrace := st.updateTrace ++
        [(st.nextExecId, ExecStatus.pending, none)] } :=
    traceInv_append_new st _ (freshExecRecord st agent prompt) rfl rfl rfl rfl hInv
  refine traceInv_runAgent oracle agent prompt (freshExecRecord st agent prompt)
    _ ?_ ?_ ?_ hInv2
  · show (entriesFor (st.updateTrace ++ [(st.nextExecId, ExecStatus.pending, none)])
        st.nextExecId).getLast? = some (ExecStatus.pending, none)
    rw [entriesFor_append,
        entriesFor_eq_nil_of_bound st.updateTrace st.nextExecId st.nextExecId
          hInv.2.2.1 le_rfl,
        entriesFor_single_self, List.nil_append]
    rfl
  · show ¬ ExecStatus.pending = ExecStatus.complete
    simp
  · show st.nextExecId < st.nextExecId + 1
    omega

theorem recoverExecution_noFile (oracle : Oracle) (exec : Execution)
    (st : EngineState)
    (hg : fsGet st.fsSignals exec.agentName = none) :
    recoverExecution oracle exec st =
      runAgent oracle exec.agentName exec.prompt exec st := by
  unfold recoverExecution
  simp only [hg]

theorem traceInv_recoverExecution (oracle : Oracle) (exec : Execution)
    (st : EngineState)
    (hlast : (entriesFor st.updateTrace exec.id).getLast? =
      some (exec.status, exec.outputSignal))
    (hnc : ¬ exec.status = ExecStatus.complete)
    (hid : exec.id < st.nextExecId)
    (hInv : TraceInv st) :
    TraceInv (recoverExecution oracle exec st).2 := by
  rcases hg : fsGet st.fsSignals exec.agentName with _ | signal
  · rw [recoverExecution_noFile oracle exec st hg]
    exact traceInv_runAgent oracle exec.agentName exec.prompt exec st hlast hnc hid hInv
  · unfold recoverExecution
    simp only [hg]
    by_cases hs : sigGet signal "status" = some (SVal.s "NEEDS_HUMAN")
    · rw [if_pos hs]
      exact hInv
    · rw [if_neg hs]
      exact traceInv_replace_append st _
        { exec with
            completedAt := some st.clock
            outputSignal := some signal
            status := ExecStatus.complete }
        [(ExecStatus.complete, some signal)]
        rfl rfl rfl hid (okChain_singleton _) (Or.inr (by simp [lockedAll])) rfl hInv

theorem traceInv_mismatchCheck (oracle : Oracle) (agent prompt : String)
    (exec : Execution) (signal : Signal) (st : EngineState)
    (hInv : TraceInv st) :
    TraceInv (mismatchCheck oracle agent prompt exec signal st).2 := by
  unfold mismatchCheck
  by_cases hm : exec.agentName ≠ agent
  · simp only [if_pos hm]
    have h2 : TraceInv (invalidateExecutionsAfterIndex
        { st with logs := st.logs ++
            ["WARNING: determinism violation at call " ++ toString st.callIndex ++
             ": expected " ++ exec.agentName ++ ", got " ++ agent] }
        st.run.id (st.callIndex - 1)) :=
      traceInv_invalidate _ _ _ hInv
    have h3 := traceInv_runAgentFresh oracle agent prompt _ h2
    rcases hrf : runAgentFresh oracle agent prompt (invalidateExecutionsAfterIndex
        { st with logs := st.logs ++
            ["WARNING: determinism violation at call " ++ toString st.callIndex ++
             ": expected " ++ exec.agentName ++ ", got " ++ agent] }
        st.run.id (st.callIndex - 1)) with ⟨r, st3⟩
    rw [hrf] at h3
    cases r with
    | error msg => simpa using h3
    | ok sig2 => simpa using h3
  · simp only [if_neg hm]
    exact hInv

theorem traceInv_luaRun (oracle : Oracle) (agent prompt : String)
    (st : EngineState) (hInv : TraceInv st) :
    TraceInv (luaRun oracle agent prompt st).2 := by
  have hInv1 : TraceInv { st with callIndex := st.callIndex + 1 } := hInv
  rcases hfind : getExecutionByCallIndex st.execs st.run.id (st.callIndex + 1)
    with _ | exec
  · unfold luaRun
    simp only [hfind]
    have h3 := traceInv_runAgentFresh oracle agent prompt
      { st with callIndex := st.callIndex + 1 } hInv1
    rcases hrf : runAgentFresh oracle agent prompt
      { st with callIndex := st.callIndex + 1 } with ⟨r, st1⟩
    rw [hrf] at h3
    cases r with
    | error msg =>
        by_cases hw : st1.waitingHuman = true <;> simp [hw] <;> exact h3
    | ok sig => simpa using h3
  · have hmem : exec ∈ st.execs := List.mem_of_find?_eq_some hfind
    have hlast := hInv.2.1 exec hmem
    have hid := hInv.2.2.2.1 exec hmem
    unfold luaRun
    simp only [hfind]
    by_cases hcomp : exec.status = ExecStatus.complete
    · rw [if_pos hcomp]
      exact traceInv_mismatchCheck oracle agent prompt exec _ _ hInv1
    · rw [if_neg hcomp]
      by_cases hrw : exec.status = ExecStatus.running ∨
          exec.status = ExecStatus.waitingHuman
      · rw [if_pos hrw]
        have hrec := traceInv_recoverExecution oracle exec
          { st with callIndex := st.callIndex + 1 } hlast hcomp hid hInv1
        rcases hre : recoverExecution oracle exec
          { st with callIndex := st.callIndex + 1 } with ⟨r, st1⟩
        rw [hre] at hrec
        cases r with
        | error msg =>
            by_cases hw : st1.waitingHuman = true <;> simp [hw] <;> exact hrec
        | ok sig =>
            exact traceInv_mismatchCheck oracle agent prompt exec sig st1 hrec
      · rw [if_neg hrw]
        have hrun := traceInv_runAgent oracle agent prompt exec
          { st with callIndex := st.callIndex + 1 } hlast hcomp hid hInv1
        rcases hra : runAgent oracle agent prompt exec
          { st with callIndex := st.callIndex + 1 } with ⟨r, st1⟩
        rw [hra] at hrun
        cases r with
        | error msg =>
            by_cases hw : st1.waitingHuman = true <;> simp [hw] <;> exact hrun
        | ok sig =>
            exact traceInv_mismatchCheck oracle agent prompt exec sig st1 hrun

theorem traceInv_runScript (oracle : Oracle) (script : List ScriptOp)
    (st : EngineState) (hInv : TraceInv st) :
    TraceInv (runScript oracle script st).2 := by
  induction script generalizing st with
  | nil => exact hInv
  | cons op rest ih =>
      cases op with
      | runA agent prompt =>
          have hstep : runScript oracle (ScriptOp.runA agent prompt :: rest) st =
              match luaRun oracle agent prompt st with
              | (LuaOutcome.value sig, st1) =>
                  runScript oracle rest
                    { st1 with returnedSignals := st1.returnedSignals ++ [sig] }
              | (LuaOutcome.raised msg, st1) => (ScriptResult.errored msg, st1) := rfl
          rw [hstep]
          have h1 := traceInv_luaRun oracle agent prompt st hInv
          rcases hlr : luaRun oracle agent prompt st with ⟨r, st1⟩
          rw [hlr] at h1
          cases r with
          | value sig => exact ih _ h1
          | raised msg => exact h1
      | raiseErr msg => exact hInv
      | stuckOp reason => exact hInv

theorem traceInv_ExecuteScript (oracle : Oracle) (script : List ScriptOp)
    (st : EngineState) (hInv : TraceInv st) :
    TraceInv (ExecuteScript oracle script st).2 := by
  unfold ExecuteScript
  have h1 := traceInv_runScript oracle script st hInv
  rcases hrs : runScript oracle script st with ⟨r, st1⟩
  rw [hrs] at h1
  cases r with
  | finished =>
      by_cases hs : st1.isStuck = true <;>
        by_cases hw : st1.waitingHuman = true <;> simp [hs, hw] <;> exact h1
  | errored msg =>
      by_cases hs : st1.isStuck = true <;>
        by_cases hw : st1.waitingHuman = true <;> simp [hs, hw] <;> exact h1

theorem traceInv_executeLua (oracle : Oracle) (script : List ScriptOp)
    (st : EngineState) (hInv : TraceInv st) :
    TraceInv (executeLua oracle script st).2 := by
  unfold executeLua
  have h1 : TraceInv (ExecuteScript oracle script (withRunning st)).2 :=
    traceInv_ExecuteScript oracle script (withRunning st) hInv
  rcases hes : ExecuteScript oracle script (withRunning st) with ⟨r, st1⟩
  rw [hes] at h1
  cases r with
  | ok => exact h1
  | errWaitingHuman => exact h1
  | scriptError msg => exact h1

theorem traceInv_init (run : Run) : TraceInv (initEngineState run) := by
  refine ⟨?_, ?_, ?_, ?_, ?_⟩ <;> simp [initEngineState, entriesFor, okChain]

/-- **C9** — counterexample.  In the NEEDS_HUMAN path the engine first writes
the record `complete` (carrying the NEEDS_HUMAN signal) and then overwrites it
to `waiting_human`: the persisted history of execution 1 contains a `complete`
write followed by a non-`complete` write, so `complete` is not terminal as
claimed. -/
theorem C9_counterexample :
    (executeLua oracleNH [ScriptOp.runA "helper" "p"]
        (initEngineState runW)).2.updateTrace =
      [(1, ExecStatus.pending, none),
       (1, ExecStatus.running, none),
       (1, ExecStatus.complete,
        some [("status", SVal.s "NEEDS_HUMAN"), ("reason", SVal.s "clarify auth")]),
       (1, ExecStatus.waitingHuman,
        some [("status", SVal.s "NEEDS_HUMAN"), ("reason", SVal.s "clarify auth")])] ∧
    okChainOrig (entriesFor
      (executeLua oracleNH [ScriptOp.runA "helper" "p"]
        (initEngineState runW)).2.updateTrace 1) = false := by
  refine ⟨by decide, by decide⟩

/-- **C9** (amended): once an Execution record is persisted `complete` with a
signal whose status is not NEEDS_HUMAN, every later persisted status for that
record is again `complete` — over any script executed by the engine, from any
state whose persisted history satisfies the engine invariant `TraceInv`, and
likewise through the orchestrator execute and resume entry points.  (The sole
exception, forced by the counterexample, is the transient `complete` write
carrying a NEEDS_HUMAN signal, which the engine immediately overwrites to
`waiting_human`.) -/
theorem C9_complete_terminal (oracle : Oracle) (script : List ScriptOp)
    (st : EngineState) (hInv : TraceInv st) :
    (∀ i, okChain (entriesFor (runScript oracle script st).2.updateTrace i) = true) ∧
    (∀ i, okChain (entriesFor (executeLua oracle script st).2.updateTrace i) = true) ∧
    (∀ i, okChain (entriesFor (resumeRun oracle script st).2.updateTrace i) = true) :=
  ⟨(traceInv_runScript oracle script st hInv).1,
   (traceInv_executeLua oracle script st hInv).1,
   (traceInv_executeLua oracle script (resumeState st) hInv).1⟩

/-- **C9** — witness: the amended theorem at the suspension scenario (where
the original claim fails) and at a completed one-call run. -/
theorem C9_complete_terminal_witness :
    okChain (entriesFor
      (executeLua oracleNH [ScriptOp.runA "helper" "p"]
        (initEngineState runW)).2.updateTrace 1) = true ∧
    okChain (entriesFor
      (runScript oracleDone [ScriptOp.runA "a" "p"]
        (initEngineState runW)).2.updateTrace 1) = true := by
  have h := C9_complete_terminal oracleNH [ScriptOp.runA "helper" "p"]
    (initEngineState runW) (traceInv_init runW)
  have h2 := C9_complete_terminal oracleDone [ScriptOp.runA "a" "p"]
    (initEngineState runW) (traceInv_init runW)
  exact ⟨h.2.1 1, h2.1 1⟩
